import Mathlib

/-!
# Verification of the sales-rag entity-aware retrieval and indexing pipeline

Shallow embedding of the core functions of the repository:
`app/rag/embeddings.py` (EmbeddingService), `app/services.py` (SalesRAGService),
`app/slack/handlers.py` (SlackHandler), `app/fathom/client.py` (FathomClient),
`smart_comprehensive_sync.py` and `comprehensive_slack_sync_enhanced.py`.

Modelling conventions:
* Python strings are Lean `String`s; `s.lower()` is `pyLower` (per-character
  lowering, which agrees with Python on the ASCII data this code handles),
  `a in b` on strings is `pyIn` (contiguous substring), `len` is `String.length`.
* Python `set`s are modelled as duplicate-free `List String` in iteration
  order; `set.add` is `insertSet` (append if absent).  Claims settled against
  these sets only use membership, which is order-independent.
* External collaborators are inputs, not re-implementations: the OpenAI
  embedding call is a function argument `embed : String -> List Float`
  (returning `[]` models the failure path of `generate_embedding`); the
  regular-expression email scan `re.findall(email_pattern, text)` is an
  argument `findEmails : String -> List String`; `hashlib.md5(...).hexdigest()`
  is an argument `md5Hex : String -> String` (the code relies only on its
  determinism); Slack/Fathom/Salesforce API responses are explicit data.
* The ChromaDB collection is a list of stored documents.  `Collection.add`
  never overwrites an existing id: depending on the chromadb version the
  duplicate insert is either skipped with a warning or raises (which
  `add_slack_message` catches); in both cases the stored record is unchanged,
  which is what `chromaAdd` models.
* `entities_json` metadata (a JSON string in the code) is modelled
  structurally as an `Entities` record: `json.dumps`/`json.loads` round-trip
  on this fixed shape, and an undecodable value is `Option.none`.
-/

namespace SalesRag

/-- ASCII lowering of one character, the case Python's `str.lower` performs on
the ASCII names and texts this code handles. -/
def lowerC (c : Char) : Char :=
  if 'A' ≤ c && c ≤ 'Z' then Char.ofNat (c.toNat + 32) else c

/-- Python `s.lower()`. -/
def pyLower (s : String) : String := ⟨s.data.map lowerC⟩

/-- Python `s.replace(c, r)` for a single-character pattern and a
single-character replacement (the only form this codebase uses). -/
def replChar (c r : Char) (s : String) : String :=
  ⟨s.data.map fun x => if x = c then r else x⟩

/-- Python `s.replace(c, '')` for a single-character pattern: delete every
occurrence of the character. -/
def dropChar (c : Char) (s : String) : String :=
  ⟨s.data.filter fun x => x ≠ c⟩

/-- Python `s.split(c)` for a single-character separator. -/
def splitOnChar (c : Char) (s : String) : List String :=
  (s.data.foldr
    (fun x acc =>
      match acc with
      | [] => [[x]]
      | h :: t => if x = c then [] :: (h :: t) else (x :: h) :: t)
    [[]]).map fun l => ⟨l⟩

/-- Python `needle in hay` for strings: contiguous substring test. -/
def pyIn (needle hay : String) : Bool := decide (List.IsInfix needle.data hay.data)

/-- Python `set.add` on a set modelled as a duplicate-free list in insertion
order: append the element if it is not already present. -/
def insertSet (x : String) (l : List String) : List String :=
  if x ∈ l then l else l ++ [x]

/-- Add every element of `xs`, in order, with `insertSet`. -/
def insertAll (xs : List String) (l : List String) : List String :=
  xs.foldl (fun acc x => insertSet x acc) l

/-- Membership is preserved by `insertSet`. -/
theorem mem_insertSet_of_mem {x y : String} {l : List String} (h : y ∈ l) :
    y ∈ insertSet x l := by
  unfold insertSet
  split
  · exact h
  · exact List.mem_append_left _ h

/-- The inserted element is a member after `insertSet`. -/
theorem mem_insertSet_self (x : String) (l : List String) : x ∈ insertSet x l := by
  unfold insertSet
  split
  · assumption
  · exact List.mem_append_right _ (List.mem_singleton.mpr rfl)

/-- Members of `insertSet x l` are `x` or members of `l`. -/
theorem mem_of_mem_insertSet {x y : String} {l : List String}
    (h : y ∈ insertSet x l) : y = x ∨ y ∈ l := by
  unfold insertSet at h
  split at h
  · exact Or.inr h
  · rcases List.mem_append.mp h with h | h
    · exact Or.inr h
    · exact Or.inl (List.mem_singleton.mp h)

/-- Membership is preserved by `insertAll`. -/
theorem mem_insertAll_of_mem {y : String} {l : List String} (xs : List String)
    (h : y ∈ l) : y ∈ insertAll xs l := by
  induction xs generalizing l with
  | nil => exact h
  | cons x xs ih => exact ih (mem_insertSet_of_mem h)

/-- Every element of `xs` is a member of `insertAll xs l`. -/
theorem mem_insertAll_self {y : String} {xs : List String} (l : List String)
    (h : y ∈ xs) : y ∈ insertAll xs l := by
  induction xs generalizing l with
  | nil => cases h
  | cons x xs ih =>
    show y ∈ insertAll xs (insertSet x l)
    rcases List.mem_cons.mp h with h | h
    · subst h; exact mem_insertAll_of_mem xs (mem_insertSet_self y l)
    · exact ih (insertSet x l) h

/-- Members of `insertAll xs l` come from `xs` or from `l`. -/
theorem mem_of_mem_insertAll {y : String} {xs l : List String}
    (h : y ∈ insertAll xs l) : y ∈ xs ∨ y ∈ l := by
  induction xs generalizing l with
  | nil => exact Or.inr h
  | cons x xs ih =>
    rcases ih h with h | h
    · exact Or.inl (List.mem_cons_of_mem _ h)
    · rcases mem_of_mem_insertSet h with h | h
      · exact Or.inl (h ▸ List.mem_cons_self x xs)
      · exact Or.inr h

/-! ## Entity cache and entity extraction (`EmbeddingService`) -/

/-- The three entity sets kept by `EmbeddingService`
(`company_cache`, `contact_cache`, `opportunity_cache`), modelled as
duplicate-free lists in iteration order. -/
structure EntityCache where
  companyCache : List String
  contactCache : List String
  opportunityCache : List String
deriving Repr, DecidableEq

/-- Result shape of `extract_entities_from_text`:
`{'companies': [...], 'contacts': [...], 'opportunities': [...]}`. -/
structure Entities where
  companies : List String
  contacts : List String
  opportunities : List String
deriving Repr, DecidableEq

/-- The optional `metadata` context consulted by `extract_entities_from_text`:
`metadata.get('channel_name', '')` and `metadata.get('user_email', '')`
(a missing key is the empty string). -/
structure ExtractCtx where
  channelName : String
  userEmail : String
deriving Repr, DecidableEq

/-- METHOD 1 of `extract_entities_from_text` (embeddings.py lines 92-103):
direct substring matches of cached names against the lowered text.
Companies and opportunities require `len(name) > 2`; contacts have no
length check. -/
def method1Entities (cache : EntityCache) (textLower : String) : Entities where
  companies := cache.companyCache.filter fun c => decide (2 < c.length) && pyIn c textLower
  contacts := cache.contactCache.filter fun c => pyIn c textLower
  opportunities := cache.opportunityCache.filter fun o => decide (2 < o.length) && pyIn o textLower

/-- Channel-based company detection (embeddings.py lines 110-118): a cached
company whose cleaned form (`lower`, spaces and dots to dashes) occurs as
`-name`, `name-`, or the whole channel name is appended if not present. -/
def channelCompanies (cache : EntityCache) (channelName : String)
    (found : List String) : List String :=
  cache.companyCache.foldl
    (fun acc c =>
      let clean := replChar '.' '-' (replChar ' ' '-' (pyLower c))
      if (pyIn ("-" ++ clean) channelName || pyIn (clean ++ "-") channelName
          || channelName == clean) && !(acc.contains c) then acc ++ [c] else acc)
    found

/-- The fixed `domain_company_map` of `_extract_entities_from_email_domains`
(embeddings.py lines 142-152), in dict insertion order. -/
def domainCompanyMap : List (String × String) :=
  [("zillow.com", "Zillow"), ("zillowgroup.com", "Zillow"),
   ("microsoft.com", "Microsoft"), ("google.com", "Google"),
   ("amazon.com", "Amazon"), ("apple.com", "Apple"),
   ("salesforce.com", "Salesforce"), ("meta.com", "Meta"),
   ("facebook.com", "Meta")]

/-- The `domain_company_map` of `_extract_entities_from_user_context`
(embeddings.py lines 178-188); it differs from the email-domain map in the
last entry (`facebook.com` maps to `Facebook`, not `Meta`). -/
def userDomainCompanyMap : List (String × String) :=
  [("zillow.com", "Zillow"), ("zillowgroup.com", "Zillow"),
   ("microsoft.com", "Microsoft"), ("google.com", "Google"),
   ("amazon.com", "Amazon"), ("apple.com", "Apple"),
   ("salesforce.com", "Salesforce"), ("meta.com", "Meta"),
   ("facebook.com", "Facebook")]

/-- Python `email.split('@')[1] if '@' in email else ''`. -/
def emailDomain (email : String) : String :=
  if pyIn "@" email then ((splitOnChar '@' email).drop 1).headD "" else ""

/-- The per-email body of `_extract_entities_from_email_domains`
(embeddings.py lines 138-168): first scan `domain_company_map` (appending and
breaking on the first map entry whose domain matches exactly or as a
`.domain` suffix, provided the mapped company is cached and not yet found),
then scan the company cache for an inferred `name.com` domain match. -/
def emailDomainStep (cache : EntityCache) (found : List String)
    (email : String) : List String :=
  let domain := emailDomain email
  let found :=
    (domainCompanyMap.foldl
      (fun (st : List String × Bool) dc =>
        let (acc, stopped) := st
        if stopped then st
        else if (domain == dc.1 || (("." ++ dc.1).data.isSuffixOf domain.data)) then
          if cache.companyCache.contains dc.2 && !(acc.contains dc.2) then
            (acc ++ [dc.2], true)
          else st
        else st)
      (found, false)).1
  cache.companyCache.foldl
    (fun acc c =>
      let companyDomain := dropChar '.' (dropChar ' ' (pyLower c)) ++ ".com"
      if domain == companyDomain && !(acc.contains c) then acc ++ [c] else acc)
    found

/-- `_extract_entities_from_email_domains` (embeddings.py lines 130-168):
`findEmails` stands for `re.findall(email_pattern, text.lower())` of the
Python `re` library, an external primitive not re-implemented here; every
theorem below holds for every choice of this function. -/
def emailDomainCompanies (findEmails : String → List String) (cache : EntityCache)
    (text : String) (found : List String) : List String :=
  (findEmails (pyLower text)).foldl (emailDomainStep cache) found

/-- `_extract_entities_from_user_context` (embeddings.py lines 170-195):
applied only when the caller-supplied user email is non-empty (Python
truthiness); returns `found` unchanged when the email has no `@`. -/
def userContextCompanies (cache : EntityCache) (userEmail : String)
    (found : List String) : List String :=
  if !(pyIn "@" userEmail) then found
  else
    let domain := pyLower (((splitOnChar '@' userEmail).drop 1).headD "")
    (userDomainCompanyMap.foldl
      (fun (st : List String × Bool) dc =>
        let (acc, stopped) := st
        if stopped then st
        else if domain == dc.1 then
          if cache.companyCache.contains dc.2 && !(acc.contains dc.2) then
            (acc ++ [dc.2], true)
          else st
        else st)
      (found, false)).1

/-- `EmbeddingService.extract_entities_from_text` (embeddings.py lines
83-128).  METHOD 1 always runs; the contextual methods (channel-name
companies, email-domain companies, user-context companies) run only when a
metadata context is supplied, and only mutate the `companies` list. -/
def extractEntities (findEmails : String → List String) (cache : EntityCache)
    (text : String) (meta : Option ExtractCtx) : Entities :=
  let textLower := pyLower text
  let e1 := method1Entities cache textLower
  match meta with
  | none => e1
  | some ctx =>
    let channelName := pyLower ctx.channelName
    let cos := channelCompanies cache channelName e1.companies
    let cos := emailDomainCompanies findEmails cache text cos
    let userEmail := pyLower ctx.userEmail
    let cos := if userEmail ≠ "" then userContextCompanies cache userEmail cos else cos
    { e1 with companies := cos }

/-! ## Entity cache refresh (`EmbeddingService.update_entity_cache`) -/

/-- Python truthiness of an optional string field: present and non-empty. -/
def truthy : Option String → Bool
  | none => false
  | some s => s ≠ ""

/-- A Salesforce account record, restricted to the field the refresh reads. -/
structure SFAccount where
  name : Option String
deriving Repr, DecidableEq

/-- A Salesforce contact record; `accountName` is `contact['Account']['Name']`
when the `Account` relation is present and carries a name. -/
structure SFContact where
  firstName : Option String
  lastName : Option String
  accountName : Option String
deriving Repr, DecidableEq

/-- A Salesforce opportunity record. -/
structure SFOpportunity where
  name : Option String
  accountName : Option String
deriving Repr, DecidableEq

/-- The outcomes of the three CRM queries issued by `update_entity_cache`
(`get_accounts`, `get_contacts`, `get_opportunities`); `.error` models the
query raising. -/
structure SFQueryResults where
  accounts : Except String (List SFAccount)
  contacts : Except String (List SFContact)
  opportunities : Except String (List SFOpportunity)

/-- The contact-loop body of `update_entity_cache` (embeddings.py lines
48-56): state is `(company_cache, contact_cache)`.  Full names are added for
contacts with both name parts; related account names are added to the
company set. -/
def contactFoldStep (st : List String × List String) (ct : SFContact) :
    List String × List String :=
  let cts :=
    if truthy ct.firstName && truthy ct.lastName then
      insertSet (pyLower (ct.firstName.getD "" ++ " " ++ ct.lastName.getD "")) st.2
    else st.2
  let cos :=
    if truthy ct.accountName then insertSet (pyLower (ct.accountName.getD "")) st.1
    else st.1
  (cos, cts)

/-- The opportunity-loop body of `update_entity_cache` (embeddings.py lines
63-70): state is `(company_cache, opportunity_cache)`. -/
def oppFoldStep (st : List String × List String) (op : SFOpportunity) :
    List String × List String :=
  let ops :=
    if truthy op.name then insertSet (pyLower (op.name.getD "")) st.2 else st.2
  let cos :=
    if truthy op.accountName then insertSet (pyLower (op.accountName.getD "")) st.1
    else st.1
  (cos, ops)

/-- `EmbeddingService.update_entity_cache` (embeddings.py lines 34-81).
`company_cache` is rebuilt from the accounts (then extended with account
names seen on contacts and opportunities), but `contact_cache` and
`opportunity_cache` are only added to — the code never clears them on the
success path.  Any of the three queries raising resets all three sets to
empty (the `except` handler). -/
def updateEntityCache (cache : EntityCache) (sf : SFQueryResults) : EntityCache :=
  match sf.accounts with
  | .error _ => ⟨[], [], []⟩
  | .ok accounts =>
    let companies :=
      if accounts.isEmpty then []
      else
        insertAll
          (accounts.filterMap fun a =>
            if truthy a.name then some (pyLower (a.name.getD "")) else none)
          []
    match sf.contacts with
    | .error _ => ⟨[], [], []⟩
    | .ok contacts =>
      let st1 := contacts.foldl contactFoldStep (companies, cache.contactCache)
      match sf.opportunities with
      | .error _ => ⟨[], [], []⟩
      | .ok opps =>
        let st2 := opps.foldl oppFoldStep (st1.1, cache.opportunityCache)
        ⟨st2.1, st1.2, st2.2⟩

/-! ## The document store (`ChromaDB` collection) and Slack-message indexing -/

/-- A document as stored in the `slack_messages` collection: its id, its
content, and the entity metadata (`entities_json`, modelled structurally). -/
structure StoredDoc where
  id : String
  content : String
  entities : Entities
deriving Repr, DecidableEq

/-- A ChromaDB collection, as a list of stored documents. -/
abbrev ChromaStore := List StoredDoc

/-- `Collection.add`: ChromaDB never overwrites an existing id — a duplicate
insert is skipped (or raises, which the callers catch); in both cases the
store is unchanged. -/
def chromaAdd (store : ChromaStore) (docId content : String)
    (entities : Entities) : ChromaStore :=
  if store.any (fun d => d.id == docId) then store
  else store ++ [⟨docId, content, entities⟩]

/-- `EmbeddingService.add_slack_message` (embeddings.py lines 209-255).
`embed` models `generate_embedding` (`[]` = provider failure, the early
`return False`); `md5Hex` stands for `hashlib.md5(...).hexdigest()` — the
code relies only on it being a deterministic function of its input.  The
document id is `md5Hex` of `"slack_" ++ message_id`; entities are extracted
from the content with the supplied context; metadata fields not read by any
claim (timestamps, user ids, flags) are elided. -/
def addSlackMessage (findEmails : String → List String)
    (embed : String → List Float) (md5Hex : String → String)
    (cache : EntityCache) (store : ChromaStore) (messageId content : String)
    (ctx : Option ExtractCtx) : ChromaStore × Bool :=
  if (embed content).isEmpty then (store, false)
  else
    let entities := extractEntities findEmails cache content ctx
    let docId := md5Hex ("slack_" ++ messageId)
    (chromaAdd store docId content entities, true)

/-- `EmbeddingService._add_to_slack_collection` (embeddings.py lines
1241-1260): same store behaviour, but the id is the raw `"slack_" ++
message_id` (no hash) and the caller passes the already-built metadata. -/
def addToSlackCollection (embed : String → List Float) (store : ChromaStore)
    (messageId content : String) (entities : Entities) : ChromaStore × Bool :=
  if (embed content).isEmpty then (store, false)
  else (chromaAdd store ("slack_" ++ messageId) content entities, true)

/-! ## Company-scoped retrieval (`EmbeddingService.search_by_company`) -/

/-- A Slack document as returned by the vector store's query: its content and
its parsed `entities_json` metadata.  `none` models an undecodable JSON value
(the `JSONDecodeError` branch); a missing key defaults to `'{}'`, which parses
to the empty record. -/
structure SlackQDoc where
  content : String
  entitiesJson : Option Entities
deriving Repr, DecidableEq

/-- A Salesforce document as returned by the vector store's query. -/
structure SfQDoc where
  content : String
deriving Repr, DecidableEq

/-- One entry of the result list of `search_by_company`. -/
inductive CompanyHit where
  | slack (doc : SlackQDoc)
  | sf (doc : SfQDoc)
deriving Repr, DecidableEq

/-- `EmbeddingService.search_by_company` (embeddings.py lines 384-450).  The
two raw vector-store query results are inputs (the ranking of the external
store is not re-implemented); `none` models the corresponding embedding call
failing (`search_by_company` returns `[]` when the first embedding fails and
silently skips the Salesforce query when the second fails).  Slack results
are kept only when the company occurs among the document's lower-cased
entity companies or as a substring of its content; Salesforce results are
appended with no company check at all; finally the list is truncated to
`n_results`. -/
def searchByCompany (companyName : String) (nResults : Nat)
    (slackQuery : Option (List SlackQDoc)) (sfQuery : Option (List SfQDoc)) :
    List CompanyHit :=
  match slackQuery with
  | none => []
  | some sdocs =>
    let slackResults := sdocs.filterMap fun d =>
      match d.entitiesJson with
      | some ents =>
        if decide (pyLower companyName ∈ ents.companies.map pyLower)
            || pyIn (pyLower companyName) (pyLower d.content) then
          some (CompanyHit.slack d)
        else none
      | none =>
        if pyIn (pyLower companyName) (pyLower d.content) then
          some (CompanyHit.slack d)
        else none
    let sfResults :=
      match sfQuery with
      | none => []
      | some fdocs => fdocs.map CompanyHit.sf
    (slackResults ++ sfResults).take nResults

/-! ## Company detection in queries (`services.py`, `handlers.py`) -/

/-- `SalesRAGService._extract_company_from_query` (services.py lines
857-863): the first cached company longer than 3 characters occurring as a
substring of the lower-cased query. -/
def extractCompanyFromQuery (companyCache : List String) (query : String) :
    Option String :=
  companyCache.find? fun c => decide (3 < c.length) && pyIn c (pyLower query)

/-- The fixed `company_patterns` table of
`SlackHandler._extract_company_from_question` (handlers.py lines 645-651). -/
def companyPatterns : List (String × List String) :=
  [("zillow",
    ["zillow", "zillowgroup", "zillow group", "discussions with zillow",
     "zillow in slack"]),
   ("microsoft",
    ["microsoft", "msft", "discussions with microsoft", "microsoft in slack"]),
   ("meta", ["meta", "facebook", "discussions with meta", "meta in slack"]),
   ("google", ["google", "alphabet", "discussions with google", "google in slack"]),
   ("amazon", ["amazon", "aws", "discussions with amazon", "amazon in slack"])]

/-- `SlackHandler._extract_company_from_question` (handlers.py lines
631-663): METHOD 1 is the same direct scan as the services variant; METHOD 2
additionally scopes through the pattern table whenever the table's company is
cached and one of its patterns occurs in the question, returning the cached
original-case name. -/
def extractCompanyFromQuestion (companyCache : List String) (question : String) :
    Option String :=
  let ql := pyLower question
  match companyCache.find? (fun c => decide (3 < c.length) && pyIn c ql) with
  | some c => some c
  | none =>
    companyPatterns.findSome? fun cp =>
      if (companyCache.map pyLower).contains cp.1 then
        cp.2.findSome? fun p =>
          if pyIn p ql then companyCache.find? (fun oc => pyLower oc == cp.1)
          else none
      else none

/-- The scoping decision of `SalesRAGService.search_sales_data` (services.py
line 673): `company_name = company_filter or
self._extract_company_from_query(query)`; the query is company-scoped iff
the result is truthy, otherwise the general path runs. -/
def searchScopeCompany (companyCache : List String)
    (companyFilter : Option String) (query : String) : Option String :=
  match companyFilter with
  | some c => if c = "" then extractCompanyFromQuery companyCache query else some c
  | none => extractCompanyFromQuery companyCache query

/-! ## Meeting deduplication (`FathomClient._deduplicate_meetings`) -/

/-- A Fathom meeting record restricted to its dedup identifiers; the empty
string models a missing/falsy field (`meeting.get('url')` etc.). -/
structure Meeting where
  id : String
  url : String
  shareUrl : String
deriving Repr, DecidableEq

/-- The identifier list collected for a meeting (fathom client lines
354-361), in source order: url, share_url, then str(id), each only when
truthy. -/
def meetingIdentifiers (m : Meeting) : List String :=
  (if m.url ≠ "" then [m.url] else []) ++
  (if m.shareUrl ≠ "" then [m.shareUrl] else []) ++
  (if m.id ≠ "" then [m.id] else [])

/-- The loop body of `_deduplicate_meetings` (fathom client lines 353-374):
a meeting sharing any identifier with the seen-set is dropped — and, notably,
its identifiers are *not* added to the seen-set; a kept meeting contributes
all its identifiers. -/
def dedupStep (st : List String × List Meeting) (m : Meeting) :
    List String × List Meeting :=
  if (meetingIdentifiers m).any (fun i => decide (i ∈ st.1)) then st
  else (insertAll (meetingIdentifiers m) st.1, st.2 ++ [m])

/-- `FathomClient._deduplicate_meetings` (fathom client lines 348-376). -/
def dedupMeetings (ms : List Meeting) : List Meeting :=
  (ms.foldl dedupStep ([], [])).2

/-- Helper for the amended dedup characterisation: keep a meeting iff none of
its identifiers occurs among the identifiers of previously *kept* meetings,
first-seen order winning. -/
def dedupKeptGo (kept : List Meeting) : List Meeting → List Meeting
  | [] => []
  | m :: ms =>
    if (meetingIdentifiers m).any
        (fun i => decide (i ∈ kept.flatMap meetingIdentifiers)) then
      dedupKeptGo kept ms
    else m :: dedupKeptGo (kept ++ [m]) ms

/-- The amended claim's characterisation of `_deduplicate_meetings`. -/
def dedupMeetingsKept (ms : List Meeting) : List Meeting := dedupKeptGo [] ms

/-! ## Channel prioritisation (`smart_comprehensive_sync.py` lines 77-125) -/

/-- A discovered Slack channel, restricted to the fields the prioritizer
reads. -/
structure Channel where
  id : String
  name : String
  numMembers : Nat
  isArchived : Bool
deriving Repr, DecidableEq

/-- Skip-list of `smart_comprehensive_sync` (lines 91-93). -/
def skipWords : List String :=
  ["random", "test", "bot-", "notifications", "alerts", "logs", "spam"]

/-- Ultra-priority name patterns (company/client channels). -/
def ultraPatterns : List String := ["fern-", "-client", "-customer", "-partner"]

/-- Ultra-priority business keywords. -/
def ultraBizWords : List String :=
  ["sales", "deals", "revenue", "partnerships", "customers"]

/-- High-priority business-operations keywords. -/
def highPriorityWords : List String :=
  ["demo", "onboarding", "support", "implementation", "integration",
   "contracts", "legal", "success", "growth"]

/-- A channel is skipped entirely when a skip word occurs in its name and it
has fewer than 5 members. -/
def chanSkip (ch : Channel) : Bool :=
  skipWords.any (fun w => pyIn w (pyLower ch.name)) && decide (ch.numMembers < 5)

/-- Ultra tier condition (lines 96-100). -/
def chanUltra (ch : Channel) : Bool :=
  ultraPatterns.any (fun p => pyIn p (pyLower ch.name))
    || ultraBizWords.any (fun p => pyIn p (pyLower ch.name))

/-- High tier condition (lines 104-107). -/
def chanHigh (ch : Channel) : Bool :=
  highPriorityWords.any (fun p => pyIn p (pyLower ch.name))
    && decide (3 ≤ ch.numMembers)

/-- Medium tier condition (line 111). -/
def chanMedium (ch : Channel) : Bool :=
  decide (5 ≤ ch.numMembers) && !ch.isArchived

/-- One pass of the categorisation loop: state is the three tier lists
(ultra, high, medium), appended to in discovery order.  There is no low
tier and no member-count sorting. -/
def smartTierStep (st : List Channel × List Channel × List Channel)
    (ch : Channel) : List Channel × List Channel × List Channel :=
  if chanSkip ch then st
  else if chanUltra ch then (st.1 ++ [ch], st.2.1, st.2.2)
  else if chanHigh ch then (st.1, st.2.1 ++ [ch], st.2.2)
  else if chanMedium ch then (st.1, st.2.1, st.2.2 ++ [ch])
  else st

/-- The processing order consumed by the sync engine
(`channels_to_process = ultra_priority + high_priority[:10] +
medium_priority[:5]`, smart_comprehensive_sync.py line 125). -/
def smartChannelsToProcess (cs : List Channel) : List Channel :=
  let t := cs.foldl smartTierStep ([], [], [])
  t.1 ++ t.2.1.take 10 ++ t.2.2.take 5

/-- Ultra-tier membership as a predicate on a single channel. -/
def isUltraTier (ch : Channel) : Bool := !chanSkip ch && chanUltra ch

/-- High-tier membership as a predicate on a single channel. -/
def isHighTier (ch : Channel) : Bool :=
  !chanSkip ch && !chanUltra ch && chanHigh ch

/-- Medium-tier membership as a predicate on a single channel. -/
def isMediumTier (ch : Channel) : Bool :=
  !chanSkip ch && !chanUltra ch && !chanHigh ch && chanMedium ch

/-! ## Rate-limited pagination and backoff -/

/-- A Slack message, restricted to the fields the sync/indexing code reads.
`Option.none` models an absent (or Python-falsy) field. -/
structure Msg where
  ts : String
  threadTs : Option String
  text : String
  userId : Option String
  botId : Option String
  subtype : Option String
deriving Repr, DecidableEq

/-- A `conversations_history` / `conversations_replies` response. -/
inductive SlackResp where
  | ok (msgs : List Msg) (hasMore : Bool) (nextCursor : Option String)
  | ratelimited
  | apiError (e : String)
deriving Repr, DecidableEq

/-- `base_wait = 61` seconds (embeddings.py line 702). -/
def baseWaitSecs : Nat := 61

/-- `max_retries = 4` in `index_all_channel_messages` (embeddings.py line
701). -/
def maxRetriesIAC : Nat := 4

/-- The backoff wait slept before retry `attempt + 1` in
`index_all_channel_messages` (embeddings.py line 737):
`base_wait * (2 ** attempt)`. -/
def waitIAC (attempt : Nat) : Nat := baseWaitSecs * 2 ^ attempt

/-- Outcome of one page fetch under the retry policy. -/
inductive PageOutcome where
  | success (msgs : List Msg) (hasMore : Bool) (nextCursor : Option String)
  | abandoned
  | notInChannel
  | otherError (e : String)
deriving Repr, DecidableEq

/-- The retry loop of `index_all_channel_messages` (embeddings.py lines
717-759): `for attempt in range(max_retries + 1)`, waiting `waitIAC attempt`
before each retry of a rate-limited request and giving the page up once
`attempt = max_retries` is rate-limited.  `responses attempt` is the API's
answer to the given attempt; the returned list is the sequence of backoff
waits slept.  The fuel argument equals the number of attempts remaining and
starts at `max_retries + 1`, so the `fuel = 0` case is unreachable. -/
def retryLoopIAC (responses : Nat → SlackResp) :
    Nat → Nat → List Nat × PageOutcome
  | _, 0 => ([], PageOutcome.abandoned)
  | attempt, fuel + 1 =>
    match responses attempt with
    | .ok m h c => ([], PageOutcome.success m h c)
    | .ratelimited =>
      if attempt < maxRetriesIAC then
        let r := retryLoopIAC responses (attempt + 1) fuel
        (waitIAC attempt :: r.1, r.2)
      else ([], PageOutcome.abandoned)
    | .apiError e =>
      if e = "not_in_channel" then ([], PageOutcome.notInChannel)
      else ([], PageOutcome.otherError e)

/-- One page fetch of `index_all_channel_messages`. -/
def fetchPageIAC (responses : Nat → SlackResp) : List Nat × PageOutcome :=
  retryLoopIAC responses 0 (maxRetriesIAC + 1)

/-- The wait slept on the k-th consecutive rate limit in
`ultra_smart_channel_sync` (smart_comprehensive_sync.py line 290):
`min(60 * consecutive_rate_limits, 300)`. -/
def ultraWait (k : Nat) : Nat := min (60 * k) 300

/-- The pagination-loop state of `ultra_smart_channel_sync`
(smart_comprehensive_sync.py lines 263-310).  `waits` records the backoff
waits slept on rate limits (the fixed per-page delay slept before every
request is not recorded).  On a rate limit the code does
`page_count -= 1; continue`, so `pageCount` is unchanged and there is no
attempt bound. -/
structure UltraState where
  pageCount : Nat
  consecutive : Nat
  collected : List Msg
  waits : List Nat
  exited : Bool
deriving Repr, DecidableEq

/-- One loop iteration of `ultra_smart_channel_sync`, driven by the API
response it receives. -/
def ultraStep (maxPages : Nat) (s : UltraState) (r : SlackResp) : UltraState :=
  if s.exited || decide (maxPages ≤ s.pageCount) then s
  else
    match r with
    | .ratelimited =>
      { s with consecutive := s.consecutive + 1,
               waits := s.waits ++ [ultraWait (s.consecutive + 1)] }
    | .apiError _ => { s with pageCount := s.pageCount + 1, exited := true }
    | .ok msgs hasMore cur =>
      let s' := { s with pageCount := s.pageCount + 1, consecutive := 0,
                         collected := s.collected ++ msgs }
      if !hasMore || cur.isNone then { s' with exited := true } else s'

/-- Run the `ultra_smart_channel_sync` pagination loop against a finite
sequence of API responses. -/
def ultraRun (maxPages : Nat) (rs : List SlackResp) : UltraState :=
  rs.foldl (ultraStep maxPages) ⟨0, 0, [], [], false⟩

/-! ## Thread-aware propagation
(`EmbeddingService.index_channel_with_smart_context`) -/

/-- The thread key: `message.get('thread_ts') or message.get('ts')`
(embeddings.py line 948), with Python falsiness of the empty string. -/
def threadKey (m : Msg) : String :=
  match m.threadTs with
  | some t => if t ≠ "" then t else m.ts
  | none => m.ts

/-- The company-channel name patterns (embeddings.py lines 934-936). -/
def companyChannelPatterns : List String :=
  ["fern-", "-client", "-customer", "-partner", "zillow", "microsoft",
   "pinecone"]

/-- Company-dedicated channel detection (embeddings.py line 934). -/
def isCompanyChannel (channelName : String) : Bool :=
  companyChannelPatterns.any fun p => pyIn p (pyLower channelName)

/-- `company_channel_entities` (embeddings.py lines 938-944): for a
company-dedicated channel, the first cached company whose lower-cased name
occurs in the lower-cased channel name (the loop breaks after one). -/
def companyChannelEnts (cache : EntityCache) (channelName : String) :
    List String :=
  if isCompanyChannel channelName then
    match cache.companyCache.find?
        (fun c => pyIn (pyLower c) (pyLower channelName)) with
    | some c => [c]
    | none => []
  else []

/-- All extracted entity names, lower-cased, in dict order (companies,
contacts, opportunities) — the values added to the per-thread entity set in
step 2 (embeddings.py lines 965-968). -/
def extractLowerAll (e : Entities) : List String :=
  (e.companies ++ e.contacts ++ e.opportunities).map pyLower

/-- The extraction context used in step 2 (`basic_metadata` carries the
channel name and no user email). -/
def msgExtractCtx (channelName : String) : ExtractCtx := ⟨channelName, ""⟩

/-- The `thread_map`: keys in insertion order, each holding the thread's
message list and accumulated entity set. -/
abbrev ThreadMap := List (String × (List Msg × List String))

/-- `if thread_ts not in thread_map: thread_map[thread_ts] = ...`. -/
def tmEnsure (tm : ThreadMap) (k : String) : ThreadMap :=
  if (tm.lookup k).isSome then tm else tm ++ [(k, ([], []))]

/-- Add entities to the entry with the given key. -/
def tmAddEnts (tm : ThreadMap) (k : String) (es : List String) : ThreadMap :=
  tm.map fun kv => if kv.1 == k then (kv.1, (kv.2.1, insertAll es kv.2.2)) else kv

/-- Append a message to the entry with the given key. -/
def tmAddMsg (tm : ThreadMap) (k : String) (m : Msg) : ThreadMap :=
  tm.map fun kv => if kv.1 == k then (kv.1, (kv.2.1 ++ [m], kv.2.2)) else kv

/-- Step 2 of `index_channel_with_smart_context` (embeddings.py lines
946-978), one message.  The state carries the map and whether the Python
loop variable `message_entities` has been assigned yet: the code only
assigns it under `if text:`, so a first message with empty text raises
`NameError` at the append — modelled by `none`, which the outer handler
turns into an aborted run. -/
def smartStep2 (findEmails : String → List String) (cache : EntityCache)
    (channelName : String) (ccEnts : List String)
    (st : Option (ThreadMap × Bool)) (m : Msg) : Option (ThreadMap × Bool) :=
  match st with
  | none => none
  | some (tm, assigned) =>
    let k := threadKey m
    let tm := tmEnsure tm k
    if m.text ≠ "" then
      let ents := extractEntities findEmails cache m.text
        (some (msgExtractCtx channelName))
      let tm := tmAddEnts tm k (extractLowerAll ents)
      let tm := if ccEnts.isEmpty then tm else tmAddEnts tm k ccEnts
      some (tmAddMsg tm k m, true)
    else if assigned then some (tmAddMsg tm k m, assigned)
    else none

/-- The whole step-2 pass over a channel's messages. -/
def smartThreadMap (findEmails : String → List String) (cache : EntityCache)
    (channelName : String) (ms : List Msg) : Option ThreadMap :=
  (ms.foldl
    (smartStep2 findEmails cache channelName (companyChannelEnts cache channelName))
    (some ([], false))).map (fun st => st.1)

/-- One entity's classification in step 3 (embeddings.py lines 1022-1038):
look the lower-cased entity up in the three caches in order and append the
first original-cased entry of the matching kind. -/
def propStep (cache : EntityCache) (acc : Entities) (e : String) : Entities :=
  if (cache.companyCache.map pyLower).contains e then
    match cache.companyCache.find? (fun oc => pyLower oc == e) with
    | some oc => { acc with companies := acc.companies ++ [oc] }
    | none => acc
  else if (cache.contactCache.map pyLower).contains e then
    match cache.contactCache.find? (fun oc => pyLower oc == e) with
    | some oc => { acc with contacts := acc.contacts ++ [oc] }
    | none => acc
  else if (cache.opportunityCache.map pyLower).contains e then
    match cache.opportunityCache.find? (fun oc => pyLower oc == e) with
    | some oc => { acc with opportunities := acc.opportunities ++ [oc] }
    | none => acc
  else acc

/-- Step 3's entity propagation (embeddings.py lines 1015-1038): map every
accumulated lower-cased thread entity back to the first original-cased cache
entry of its kind (companies, then contacts, then opportunities). -/
def propagateTag (cache : EntityCache) (threadEnts : List String) : Entities :=
  threadEnts.foldl (propStep cache) ⟨[], [], []⟩

/-- A message as indexed by step 3, with its propagated entity metadata
(`entities_json` of the stored document). -/
structure TaggedDoc where
  msgTs : String
  content : String
  threadTs : Option String
  entities : Entities
  isThreadRoot : Bool
deriving Repr, DecidableEq

/-- Step 3 of `index_channel_with_smart_context` (embeddings.py lines
980-1072): every non-bot, non-subtype message of length at least 3 is tagged
with the propagated union of its whole thread group. -/
def smartStep3 (cache : EntityCache) (tm : ThreadMap) : List TaggedDoc :=
  tm.flatMap fun kv =>
    kv.2.1.filterMap fun m =>
      if m.botId.isSome || m.subtype.isSome then none
      else if decide (m.text.length < 3) then none
      else
        some ⟨m.ts, m.text, m.threadTs, propagateTag cache kv.2.2,
              m.ts == kv.1⟩

/-- `index_channel_with_smart_context`, steps 2 and 3 (the propagation core):
the list of tagged documents the function hands to the store, or `none` when
the run aborts (see `smartStep2`). -/
def indexChannelSmart (findEmails : String → List String) (cache : EntityCache)
    (channelName : String) (ms : List Msg) : Option (List TaggedDoc) :=
  (smartThreadMap findEmails cache channelName ms).map (smartStep3 cache)

/-- One message's contribution to the entity union of thread `k`: for a
message of that thread with non-empty text, add its lower-cased extracted
entities and then the channel's dedicated-company entities. -/
def teStep (findEmails : String → List String) (cache : EntityCache)
    (channelName : String) (k : String) (acc : List String) (m : Msg) :
    List String :=
  if threadKey m == k && m.text ≠ "" then
    let lows := extractLowerAll
      (extractEntities findEmails cache m.text (some (msgExtractCtx channelName)))
    let acc := insertAll lows acc
    let cc := companyChannelEnts cache channelName
    if cc.isEmpty then acc else insertAll cc acc
  else acc

/-- The per-thread entity union accumulated from a starting set. -/
def threadEntsFrom (findEmails : String → List String) (cache : EntityCache)
    (channelName : String) (k : String) (ms : List Msg) (acc : List String) :
    List String :=
  ms.foldl (teStep findEmails cache channelName k) acc

/-- The entity union of thread `k` over a message list. -/
def threadEntsOf (findEmails : String → List String) (cache : EntityCache)
    (channelName : String) (ms : List Msg) (k : String) : List String :=
  threadEntsFrom findEmails cache channelName k ms []

/-- The thread key of a tagged document, recomputed from its stored
`thread_ts`/`ts` metadata exactly as `threadKey` computes it from the
message. -/
def docThreadKey (d : TaggedDoc) : String :=
  match d.threadTs with
  | some t => if t ≠ "" then t else d.msgTs
  | none => d.msgTs

/-! ## Theorems -/

/-- C7: If any of the three CRM queries raises during an entity-cache
refresh, `update_entity_cache` resets all three cached sets to empty and
returns without raising. -/
theorem C7_refresh_error_resets_cache (cache : EntityCache)
    (sf : SFQueryResults)
    (h : (∃ e, sf.accounts = .error e) ∨ (∃ e, sf.contacts = .error e) ∨
      (∃ e, sf.opportunities = .error e)) :
    updateEntityCache cache sf = ⟨[], [], []⟩ := by
  rcases hacc : sf.accounts with e | as
  · simp [updateEntityCache, hacc]
  · rcases hcon : sf.contacts with e | cs
    · simp [updateEntityCache, hacc, hcon]
    · rcases hopp : sf.opportunities with e | os
      · simp [updateEntityCache, hacc, hcon, hopp]
      · exfalso
        rcases h with ⟨e, he⟩ | ⟨e, he⟩ | ⟨e, he⟩
        · rw [hacc] at he; exact Except.noConfusion he
        · rw [hcon] at he; exact Except.noConfusion he
        · rw [hopp] at he; exact Except.noConfusion he

/-- Witness for C7 at a concrete failing refresh. -/
theorem C7_refresh_error_resets_cache_witness :
    updateEntityCache ⟨["acme"], ["jane doe"], ["big deal"]⟩
      ⟨Except.error "timeout", Except.ok [], Except.ok []⟩ = ⟨[], [], []⟩ :=
  C7_refresh_error_resets_cache _ _ (Or.inl ⟨"timeout", rfl⟩)

/-- The contact loop preserves membership in the contact set. -/
theorem contactFold_mem_right {x : String} :
    ∀ (cs : List SFContact) (st : List String × List String), x ∈ st.2 →
      x ∈ (cs.foldl contactFoldStep st).2 := by
  intro cs
  induction cs with
  | nil => intro st h; exact h
  | cons c cs ih =>
    intro st h
    refine ih _ ?_
    show x ∈ (contactFoldStep st c).2
    unfold contactFoldStep
    dsimp only
    split
    · exact mem_insertSet_of_mem h
    · exact h

/-- The opportunity loop preserves membership in the opportunity set. -/
theorem oppFold_mem_right {x : String} :
    ∀ (os : List SFOpportunity) (st : List String × List String), x ∈ st.2 →
      x ∈ (os.foldl oppFoldStep st).2 := by
  intro os
  induction os with
  | nil => intro st h; exact h
  | cons o os ih =>
    intro st h
    refine ih _ ?_
    show x ∈ (oppFoldStep st o).2
    unfold oppFoldStep
    dsimp only
    split
    · exact mem_insertSet_of_mem h
    · exact h

/-- The company component of the contact loop does not depend on the contact
component of the state. -/
theorem contactFold_fst_congr :
    ∀ (cs : List SFContact) (st st' : List String × List String),
      st.1 = st'.1 → (cs.foldl contactFoldStep st).1 = (cs.foldl contactFoldStep st').1 := by
  intro cs
  induction cs with
  | nil => intro st st' h; exact h
  | cons c cs ih =>
    intro st st' h
    refine ih _ _ ?_
    show (contactFoldStep st c).1 = (contactFoldStep st' c).1
    unfold contactFoldStep
    dsimp only
    rw [h]

/-- The company component of the opportunity loop does not depend on the
opportunity component of the state. -/
theorem oppFold_fst_congr :
    ∀ (os : List SFOpportunity) (st st' : List String × List String),
      st.1 = st'.1 → (os.foldl oppFoldStep st).1 = (os.foldl oppFoldStep st').1 := by
  intro os
  induction os with
  | nil => intro st st' h; exact h
  | cons o os ih =>
    intro st st' h
    refine ih _ _ ?_
    show (oppFoldStep st o).1 = (oppFoldStep st' o).1
    unfold oppFoldStep
    dsimp only
    rw [h]

/-- C6 (amended): a successful refresh replaces the companies set wholesale
(the resulting companies do not depend on the prior cache at all), but the
contacts and opportunities sets are only accumulated into — every entry of
the prior cache survives the refresh. -/
theorem C6_refresh_replace_amended (cache cache' : EntityCache)
    (sf : SFQueryResults) (as : List SFAccount) (cs : List SFContact)
    (os : List SFOpportunity) (ha : sf.accounts = .ok as)
    (hc : sf.contacts = .ok cs) (ho : sf.opportunities = .ok os) :
    (updateEntityCache cache sf).companyCache
        = (updateEntityCache cache' sf).companyCache
    ∧ (∀ x, x ∈ cache.contactCache →
        x ∈ (updateEntityCache cache sf).contactCache)
    ∧ (∀ x, x ∈ cache.opportunityCache →
        x ∈ (updateEntityCache cache sf).opportunityCache) := by
  unfold updateEntityCache
  rw [ha, hc, ho]
  dsimp only
  refine ⟨?_, ?_, ?_⟩
  · apply oppFold_fst_congr
    apply contactFold_fst_congr
    rfl
  · intro x hx
    exact contactFold_mem_right cs _ hx
  · intro x hx
    exact oppFold_mem_right os _ hx

/-- Witness for the amended C6 at a concrete refresh. -/
theorem C6_refresh_replace_amended_witness :
    "old person" ∈ (updateEntityCache ⟨[], ["old person"], []⟩
      ⟨Except.ok [⟨some "Acme Corp"⟩],
       Except.ok [⟨some "New", some "Person", none⟩], Except.ok []⟩).contactCache :=
  (C6_refresh_replace_amended ⟨[], ["old person"], []⟩ ⟨[], [], []⟩ _ _ _ _
    rfl rfl rfl).2.1 "old person" (by decide)

/-- C6 counterexample: refreshing a cache holding the contact
`"old person"` and the opportunity `"old deal"` against a snapshot that
contains neither leaves both in the cache — the second and third sets are
not replaced, contradicting the claim that a name present only in an earlier
snapshot is absent after the refresh. -/
theorem C6_refresh_replace_counterexample :
    (updateEntityCache ⟨[], ["old person"], ["old deal"]⟩
        ⟨Except.ok [⟨some "Acme Corp"⟩],
         Except.ok [⟨some "New", some "Person", none⟩], Except.ok []⟩)
      = ⟨["acme corp"], ["old person", "new person"], ["old deal"]⟩ := by
  decide

/-- C8 (amended): with no metadata context, only METHOD 1 runs, and its
length floor for companies and opportunities is `len > 2` — names of length
3 are matchable and only names of length at most 2 are excluded (contacts
have no floor at all). -/
theorem C8_short_names_amended (findEmails : String → List String)
    (cache : EntityCache) (text name : String)
    (h : name ∈ (extractEntities findEmails cache text none).companies ∨
      name ∈ (extractEntities findEmails cache text none).opportunities) :
    2 < name.length := by
  have hx : extractEntities findEmails cache text none
      = method1Entities cache (pyLower text) := rfl
  rw [hx] at h
  unfold method1Entities at h
  rcases h with h | h
  · have := (List.mem_filter.mp h).2
    have := (Bool.and_eq_true _ _).mp this
    exact of_decide_eq_true this.1
  · have := (List.mem_filter.mp h).2
    have := (Bool.and_eq_true _ _).mp this
    exact of_decide_eq_true this.1

/-- Witness for the amended C8: a length-9 cached company is matched and the
bound holds. -/
theorem C8_short_names_amended_witness :
    "acme corp" ∈ (extractEntities (fun _ => []) ⟨["acme corp"], [], []⟩
        "we met acme corp" none).companies
    ∧ 2 < ("acme corp" : String).length :=
  ⟨by decide,
   C8_short_names_amended (fun _ => []) ⟨["acme corp"], [], []⟩
     "we met acme corp" "acme corp" (Or.inl (by decide))⟩

/-- C8 counterexample: the cached company `"abc"` has length 3 — at most 3 —
yet the extractor returns it as a match, so length-3 names are not
excluded.  (The code excludes only `len <= 2`.) -/
theorem C8_short_names_counterexample :
    "abc" ∈ (extractEntities (fun _ => []) ⟨["abc"], [], []⟩
        "call abc now" none).companies
    ∧ ("abc" : String).length ≤ 3 := by
  decide

/-- Pointwise-equal predicates give equal `List.any`. -/
theorem anyCongr {α : Type} {l : List α} {f g : α → Bool}
    (h : ∀ x ∈ l, f x = g x) : l.any f = l.any g := by
  induction l with
  | nil => rfl
  | cons a l ih =>
    simp only [List.any_cons]
    rw [h a (List.mem_cons_self a l), ih fun x hx => h x (List.mem_cons_of_mem a hx)]

/-- Membership characterisation of `insertAll`. -/
theorem mem_insertAll_iff {y : String} {xs l : List String} :
    y ∈ insertAll xs l ↔ y ∈ xs ∨ y ∈ l := by
  constructor
  · exact mem_of_mem_insertAll
  · rintro (h | h)
    · exact mem_insertAll_self l h
    · exact mem_insertAll_of_mem xs h

/-- The seen-set of the dedup fold tracks exactly the identifiers of the
meetings kept so far. -/
theorem dedupFold_eq_keptGo :
    ∀ (ms : List Meeting) (seen : List String) (kept : List Meeting),
      (∀ i, i ∈ seen ↔ i ∈ kept.flatMap meetingIdentifiers) →
      (ms.foldl dedupStep (seen, kept)).2 = kept ++ dedupKeptGo kept ms := by
  intro ms
  induction ms with
  | nil => intro seen kept _; simp [dedupKeptGo]
  | cons m ms ih =>
    intro seen kept h
    have hcond : ((meetingIdentifiers m).any fun i => decide (i ∈ seen))
        = ((meetingIdentifiers m).any fun i =>
            decide (i ∈ kept.flatMap meetingIdentifiers)) :=
      anyCongr fun i _ => decide_eq_decide.mpr (h i)
    rw [List.foldl_cons, dedupKeptGo]
    by_cases hc : ((meetingIdentifiers m).any fun i =>
        decide (i ∈ kept.flatMap meetingIdentifiers)) = true
    · have hstep : dedupStep (seen, kept) m = (seen, kept) := by
        unfold dedupStep; dsimp only; rw [hcond, if_pos hc]
      rw [hstep, if_pos hc]
      exact ih seen kept h
    · have hstep : dedupStep (seen, kept) m
          = (insertAll (meetingIdentifiers m) seen, kept ++ [m]) := by
        unfold dedupStep; dsimp only; rw [hcond, if_neg hc]
      rw [hstep, if_neg hc]
      have h' : ∀ i, i ∈ insertAll (meetingIdentifiers m) seen ↔
          i ∈ (kept ++ [m]).flatMap meetingIdentifiers := by
        intro i
        rw [mem_insertAll_iff, h i]
        simp [List.flatMap_append, Or.comm]
      rw [ih (insertAll (meetingIdentifiers m) seen) (kept ++ [m]) h']
      simp

/-- C5 (amended): `_deduplicate_meetings` keeps a meeting exactly when none
of its (truthy) identifiers occurs among the identifiers of previously
*kept* meetings, first-seen order winning.  A dropped duplicate's
identifiers are discarded, so they never contribute to later dedup
decisions. -/
theorem C5_meeting_dedup_amended (ms : List Meeting) :
    dedupMeetings ms = dedupMeetingsKept ms := by
  unfold dedupMeetings dedupMeetingsKept
  have := dedupFold_eq_keptGo ms [] [] (by simp)
  simpa using this

/-- Witness for the amended C5 at a concrete meeting list. -/
theorem C5_meeting_dedup_amended_witness :
    dedupMeetings [⟨"1", "u", ""⟩, ⟨"2", "u", "s"⟩]
      = dedupMeetingsKept [⟨"1", "u", ""⟩, ⟨"2", "u", "s"⟩] :=
  C5_meeting_dedup_amended [⟨"1", "u", ""⟩, ⟨"2", "u", "s"⟩]

/-- C5 counterexample: meeting B (id "1", share url "s") is dropped as a
duplicate of A (id "1"), but its share url is *not* recorded; the later
meeting C carrying only share url "s" is then kept as a separate record —
the output has two meetings where the claim requires a single merged one. -/
theorem C5_meeting_dedup_counterexample :
    dedupMeetings [⟨"1", "", ""⟩, ⟨"1", "", "s"⟩, ⟨"", "", "s"⟩]
      = [⟨"1", "", ""⟩, ⟨"", "", "s"⟩]
    ∧ (dedupMeetings [⟨"1", "", ""⟩, ⟨"1", "", "s"⟩, ⟨"", "", "s"⟩]).length = 2 := by
  decide

/-- The categorisation fold appends each tier's channels, in discovery
order, to the corresponding accumulator. -/
theorem smartTierFold_eq :
    ∀ (cs : List Channel) (u h m : List Channel),
      cs.foldl smartTierStep (u, h, m)
        = (u ++ cs.filter isUltraTier, h ++ cs.filter isHighTier,
           m ++ cs.filter isMediumTier) := by
  intro cs
  induction cs with
  | nil => intro u h m; simp
  | cons c cs ih =>
    intro u h m
    rw [List.foldl_cons]
    by_cases h1 : chanSkip c = true
    · have hstep : smartTierStep (u, h, m) c = (u, h, m) := by
        unfold smartTierStep; dsimp only; rw [if_pos h1]
      rw [hstep, ih]
      simp [List.filter_cons, isUltraTier, isHighTier, isMediumTier, h1]
    · by_cases h2 : chanUltra c = true
      · have hstep : smartTierStep (u, h, m) c = (u ++ [c], h, m) := by
          unfold smartTierStep; dsimp only; rw [if_neg h1, if_pos h2]
        rw [hstep, ih]
        simp [List.filter_cons, isUltraTier, isHighTier, isMediumTier, h1, h2]
      · by_cases h3 : chanHigh c = true
        · have hstep : smartTierStep (u, h, m) c = (u, h ++ [c], m) := by
            unfold smartTierStep; dsimp only; rw [if_neg h1, if_neg h2, if_pos h3]
          rw [hstep, ih]
          simp [List.filter_cons, isUltraTier, isHighTier, isMediumTier, h1, h2, h3]
        · by_cases h4 : chanMedium c = true
          · have hstep : smartTierStep (u, h, m) c = (u, h, m ++ [c]) := by
              unfold smartTierStep; dsimp only
              rw [if_neg h1, if_neg h2, if_neg h3, if_pos h4]
            rw [hstep, ih]
            simp [List.filter_cons, isUltraTier, isHighTier, isMediumTier,
              h1, h2, h3, h4]
          · have hstep : smartTierStep (u, h, m) c = (u, h, m) := by
              unfold smartTierStep; dsimp only
              rw [if_neg h1, if_neg h2, if_neg h3, if_neg h4]
            rw [hstep, ih]
            simp [List.filter_cons, isUltraTier, isHighTier, isMediumTier,
              h1, h2, h3, h4]

/-- C9 (amended): the prioritizer's output is three tiers concatenated in
priority order — all ultra channels, then the first 10 high channels, then
the first 5 medium channels (there is no low tier) — and within each tier
channels keep their discovery order; there is no member-count sorting.  The
output is a function of the input list, hence deterministic. -/
theorem C9_channel_order_amended (cs : List Channel) :
    smartChannelsToProcess cs
      = cs.filter isUltraTier ++ (cs.filter isHighTier).take 10
        ++ (cs.filter isMediumTier).take 5 := by
  unfold smartChannelsToProcess
  rw [smartTierFold_eq cs [] [] []]
  simp

/-- Witness for the amended C9 at a concrete channel list. -/
theorem C9_channel_order_amended_witness :
    smartChannelsToProcess [⟨"C1", "sales", 3, false⟩, ⟨"C2", "demo-room", 4, false⟩]
      = [⟨"C1", "sales", 3, false⟩, ⟨"C2", "demo-room", 4, false⟩].filter isUltraTier
        ++ ([⟨"C1", "sales", 3, false⟩, ⟨"C2", "demo-room", 4, false⟩].filter
              isHighTier).take 10
        ++ ([⟨"C1", "sales", 3, false⟩, ⟨"C2", "demo-room", 4, false⟩].filter
              isMediumTier).take 5 :=
  C9_channel_order_amended [⟨"C1", "sales", 3, false⟩, ⟨"C2", "demo-room", 4, false⟩]

/-- C9 counterexample: two ultra-tier channels with member counts 3 and 10,
discovered in that order, are processed in discovery order `[3, 10]` — not
sorted by member count descending as the claim requires. -/
theorem C9_channel_order_counterexample :
    smartChannelsToProcess
        [⟨"C1", "sales", 3, false⟩, ⟨"C2", "sales-emea", 10, false⟩]
      = [⟨"C1", "sales", 3, false⟩, ⟨"C2", "sales-emea", 10, false⟩]
    ∧ (smartChannelsToProcess
        [⟨"C1", "sales", 3, false⟩, ⟨"C2", "sales-emea", 10, false⟩]).map
          Channel.numMembers = [3, 10]
    ∧ 3 < 10 := by
  refine ⟨by decide, by decide, by decide⟩

/-- `find?` succeeds exactly when some element satisfies the predicate. -/
theorem find?_isSome_eq_any {α : Type} (l : List α) (p : α → Bool) :
    (l.find? p).isSome = l.any p := by
  induction l with
  | nil => rfl
  | cons a l ih =>
    by_cases hp : p a = true
    · rw [List.find?_cons_of_pos _ hp]
      simp [hp]
    · rw [List.find?_cons_of_neg _ (by simpa using hp)]
      simp [hp, ih]

/-- C10 (amended): `SalesRAGService._extract_company_from_query` detects a
company exactly when some cached company name strictly longer than 3
characters occurs as a substring of the lower-cased query, and any detected
company is such a cached name; with no explicit filter,
`search_sales_data`'s scoping decision is exactly this detector.  (The Slack
handler's `_extract_company_from_question` additionally scopes through a
fixed pattern table — see the counterexample.) -/
theorem C10_company_detection_amended (companyCache : List String) (q : String) :
    ((extractCompanyFromQuery companyCache q).isSome
      = companyCache.any fun c => decide (3 < c.length) && pyIn c (pyLower q))
    ∧ (∀ c, extractCompanyFromQuery companyCache q = some c →
        c ∈ companyCache ∧ 3 < c.length ∧ pyIn c (pyLower q) = true)
    ∧ searchScopeCompany companyCache none q = extractCompanyFromQuery companyCache q := by
  refine ⟨find?_isSome_eq_any _ _, ?_, rfl⟩
  intro c hc
  have hmem := List.mem_of_find?_eq_some hc
  have hp := List.find?_some hc
  have hp' := (Bool.and_eq_true _ _).mp hp
  exact ⟨hmem, of_decide_eq_true hp'.1, hp'.2⟩

/-- Witness for the amended C10 at a concrete cache and query. -/
theorem C10_company_detection_amended_witness :
    extractCompanyFromQuery ["globex"] "news about globex today" = some "globex"
    ∧ "globex" ∈ ["globex"] ∧ 3 < ("globex" : String).length
    ∧ pyIn "globex" (pyLower "news about globex today") = true :=
  ⟨by decide,
   (C10_company_detection_amended ["globex"] "news about globex today").2.1
     "globex" (by decide)⟩

/-- C10 counterexample: with `"microsoft"` cached, the Slack handler's
detector scopes the query `"what about msft"` to Microsoft through its
METHOD-2 pattern table even though no cached company name occurs as a
substring of the query — detection does not return nothing, so the
retrieval takes the company-scoped path, contradicting the claimed "only
when" condition. -/
theorem C10_company_detection_counterexample :
    extractCompanyFromQuestion ["microsoft"] "what about msft" = some "microsoft"
    ∧ pyIn "microsoft" (pyLower "what about msft") = false := by
  decide

/-- C1 (amended): indexing the same message id twice leaves exactly one
document with the deterministic id in the store, but its content is the
content of the *first* call — the second, same-id `add` is ignored by the
store (deduplicating insert, not a replacing upsert). -/
theorem C1_duplicate_index_amended (findEmails : String → List String)
    (embed : String → List Float) (md5Hex : String → String)
    (cache : EntityCache) (store : ChromaStore) (mid c1 c2 : String)
    (ctx1 ctx2 : Option ExtractCtx)
    (h1 : (embed c1).isEmpty = false) (h2 : (embed c2).isEmpty = false)
    (hfresh : (store.any fun d => d.id == md5Hex ("slack_" ++ mid)) = false) :
    (addSlackMessage findEmails embed md5Hex cache
        (addSlackMessage findEmails embed md5Hex cache store mid c1 ctx1).1
        mid c2 ctx2).1
      = store ++ [⟨md5Hex ("slack_" ++ mid), c1,
          extractEntities findEmails cache c1 ctx1⟩]
    ∧ (((addSlackMessage findEmails embed md5Hex cache
          (addSlackMessage findEmails embed md5Hex cache store mid c1 ctx1).1
          mid c2 ctx2).1).filter fun d => d.id == md5Hex ("slack_" ++ mid)).length
        = 1 := by
  have hs1 : (addSlackMessage findEmails embed md5Hex cache store mid c1 ctx1).1
      = store ++ [⟨md5Hex ("slack_" ++ mid), c1,
          extractEntities findEmails cache c1 ctx1⟩] := by
    unfold addSlackMessage
    rw [h1]
    dsimp only
    unfold chromaAdd
    rw [hfresh]
    simp
  have hdup : ((store ++ [(⟨md5Hex ("slack_" ++ mid), c1,
        extractEntities findEmails cache c1 ctx1⟩ : StoredDoc)]).any
        fun d => d.id == md5Hex ("slack_" ++ mid)) = true := by
    rw [List.any_append]
    simp
  have hs2 : (addSlackMessage findEmails embed md5Hex cache
      (store ++ [⟨md5Hex ("slack_" ++ mid), c1,
        extractEntities findEmails cache c1 ctx1⟩])
      mid c2 ctx2).1
      = store ++ [⟨md5Hex ("slack_" ++ mid), c1,
          extractEntities findEmails cache c1 ctx1⟩] := by
    unfold addSlackMessage
    rw [h2]
    dsimp only
    unfold chromaAdd
    rw [hdup]
    simp
  constructor
  · rw [hs1, hs2]
  · rw [hs1, hs2, List.filter_append]
    have hnone : (store.filter fun d => d.id == md5Hex ("slack_" ++ mid)) = [] := by
      rw [List.filter_eq_nil_iff]
      intro d hd
      intro hcontra
      have : (store.any fun d => d.id == md5Hex ("slack_" ++ mid)) = true :=
        List.any_eq_true.mpr ⟨d, hd, hcontra⟩
      rw [hfresh] at this
      exact Bool.noConfusion this
    rw [hnone]
    simp

/-- Witness for the amended C1 at concrete inputs. -/
theorem C1_duplicate_index_amended_witness :
    (addSlackMessage (fun _ => []) (fun _ => [(1 : Float)]) (fun s => s)
        ⟨[], [], []⟩
        (addSlackMessage (fun _ => []) (fun _ => [(1 : Float)]) (fun s => s)
          ⟨[], [], []⟩ [] "m1" "hello there" none).1
        "m1" "goodbye now" none).1
      = [⟨"slack_m1", "hello there", ⟨[], [], []⟩⟩]
    ∧ (List.filter (fun d => d.id == "slack_m1")
        (addSlackMessage (fun _ => []) (fun _ => [(1 : Float)]) (fun s => s)
          ⟨[], [], []⟩
          (addSlackMessage (fun _ => []) (fun _ => [(1 : Float)]) (fun s => s)
            ⟨[], [], []⟩ [] "m1" "hello there" none).1
          "m1" "goodbye now" none).1).length = 1 := by
  have := C1_duplicate_index_amended (fun _ => []) (fun _ => [(1 : Float)])
    (fun s => s) ⟨[], [], []⟩ [] "m1" "hello there" "goodbye now" none none
    rfl rfl rfl
  exact ⟨this.1.trans (by decide), this.2⟩

/-- C1 counterexample: after indexing message `"m1"` with content
`"hello there"` and re-indexing the same id with content `"goodbye now"`,
the single stored document still carries the first content — the second
write's content does not win as the claim requires. -/
theorem C1_duplicate_index_counterexample :
    (addSlackMessage (fun _ => []) (fun _ => [(1 : Float)]) (fun s => s)
        ⟨[], [], []⟩
        (addSlackMessage (fun _ => []) (fun _ => [(1 : Float)]) (fun s => s)
          ⟨[], [], []⟩ [] "m1" "hello there" none).1
        "m1" "goodbye now" none).1
      = [⟨"slack_m1", "hello there", ⟨[], [], []⟩⟩]
    ∧ "hello there" ≠ "goodbye now" := by
  refine ⟨by decide, by decide⟩

/-- C2 (amended): in `search_by_company`, every *Slack*-sourced result
either carries the company among its lower-cased entity companies or
mentions it (case-insensitively) in its content; Salesforce-sourced results
are subject to no such check (see the counterexample). -/
theorem C2_company_scope_amended (companyName : String) (n : Nat)
    (slackQ : Option (List SlackQDoc)) (sfQ : Option (List SfQDoc))
    (d : SlackQDoc)
    (h : CompanyHit.slack d ∈ searchByCompany companyName n slackQ sfQ) :
    pyLower companyName ∈
        (match d.entitiesJson with
         | some ents => ents.companies
         | none => []).map pyLower
    ∨ pyIn (pyLower companyName) (pyLower d.content) = true := by
  unfold searchByCompany at h
  rcases slackQ with _ | sdocs
  · simp at h
  · dsimp only at h
    have h' := List.mem_of_mem_take h
    rcases List.mem_append.mp h' with hsl | hsf
    · obtain ⟨d', hd', hfd⟩ := List.mem_filterMap.mp hsl
      rcases hej : d'.entitiesJson with _ | ents
      · rw [hej] at hfd
        dsimp only at hfd
        by_cases hcond : pyIn (pyLower companyName) (pyLower d'.content) = true
        · rw [if_pos hcond] at hfd
          have hdd : d' = d := CompanyHit.slack.inj (Option.some.inj hfd)
          subst hdd
          exact Or.inr hcond
        · rw [if_neg hcond] at hfd
          exact Option.noConfusion hfd
      · rw [hej] at hfd
        dsimp only at hfd
        by_cases hcond : (decide (pyLower companyName ∈ ents.companies.map pyLower)
            || pyIn (pyLower companyName) (pyLower d'.content)) = true
        · rw [if_pos hcond] at hfd
          have hdd : d' = d := CompanyHit.slack.inj (Option.some.inj hfd)
          subst hdd
          rw [hej]
          rcases (Bool.or_eq_true _ _).mp hcond with hc | hc
          · exact Or.inl (of_decide_eq_true hc)
          · exact Or.inr hc
        · rw [if_neg hcond] at hfd
          exact Option.noConfusion hfd
    · exfalso
      rcases sfQ with _ | fdocs
      · simp at hsf
      · dsimp only at hsf
        obtain ⟨f, _, hf⟩ := List.mem_map.mp hsf
        exact CompanyHit.noConfusion hf

/-- Witness for the amended C2: a Slack result that passes the company
filter through its content indeed satisfies the disjunction. -/
theorem C2_company_scope_amended_witness :
    CompanyHit.slack ⟨"we spoke to acme", some ⟨[], [], []⟩⟩ ∈
        searchByCompany "Acme" 10
          (some [⟨"we spoke to acme", some ⟨[], [], []⟩⟩]) (some [])
    ∧ (pyLower "Acme" ∈
        (match (some (⟨[], [], []⟩ : Entities) : Option Entities) with
         | some ents => ents.companies
         | none => []).map pyLower
      ∨ pyIn (pyLower "Acme") (pyLower "we spoke to acme") = true) :=
  ⟨by decide,
   C2_company_scope_amended "Acme" 10
     (some [⟨"we spoke to acme", some ⟨[], [], []⟩⟩]) (some [])
     ⟨"we spoke to acme", some ⟨[], [], []⟩⟩ (by decide)⟩

/-- C2 counterexample: a company-scoped search for `"Acme"` returns a
Salesforce document whose content never mentions Acme (and which carries no
entity tags at all) — Salesforce results are appended unfiltered, so foreign
documents do reach the context set. -/
theorem C2_company_scope_counterexample :
    CompanyHit.sf ⟨"Globex Corp annual report"⟩ ∈
        searchByCompany "Acme" 10 (some []) (some [⟨"Globex Corp annual report"⟩])
    ∧ pyIn (pyLower "Acme") (pyLower "Globex Corp annual report") = false := by
  decide

/-- A run of the `ultra_smart_channel_sync` loop against consecutive
rate-limit responses never exits, never advances the page, and performs one
bounded wait per response. -/
theorem ultraRun_ratelimited (maxPages : Nat) :
    ∀ (n : Nat) (s : UltraState), s.exited = false → s.pageCount < maxPages →
      ((List.replicate n SlackResp.ratelimited).foldl (ultraStep maxPages) s).exited
          = false
      ∧ ((List.replicate n SlackResp.ratelimited).foldl (ultraStep maxPages) s).pageCount
          = s.pageCount
      ∧ ((List.replicate n SlackResp.ratelimited).foldl (ultraStep maxPages) s).waits.length
          = s.waits.length + n := by
  intro n
  induction n with
  | zero => intro s he hp; exact ⟨he, rfl, rfl⟩
  | succ n ih =>
    intro s he hp
    rw [List.replicate_succ, List.foldl_cons]
    have hguard : (s.exited || decide (maxPages ≤ s.pageCount)) = false := by
      rw [he]
      simp [Nat.not_le.mpr hp]
    have hstep : ultraStep maxPages s SlackResp.ratelimited
        = { s with consecutive := s.consecutive + 1,
                   waits := s.waits ++ [ultraWait (s.consecutive + 1)] } := by
      unfold ultraStep
      rw [hguard]
      simp
    rw [hstep]
    have := ih { s with consecutive := s.consecutive + 1,
                        waits := s.waits ++ [ultraWait (s.consecutive + 1)] }
      he hp
    refine ⟨this.1, this.2.1, ?_⟩
    rw [this.2.2]
    simp
    omega

/-- C4 (amended): the backoff waits of both sync loops are non-decreasing in
the attempt number and bounded (`61 * 2^k <= 488` across the at most
`max_retries = 4` retries of `index_all_channel_messages`, and
`min(60k, 300) <= 300` in `ultra_smart_channel_sync`);
`index_all_channel_messages` abandons the page after its 5 attempts are
exhausted — but `ultra_smart_channel_sync` has no maximum attempt count:
under unbroken rate limiting it retries the same page indefinitely, never
exiting and never advancing. -/
theorem C4_backoff_amended :
    (∀ k l, k ≤ l → waitIAC k ≤ waitIAC l)
    ∧ (∀ k, k < maxRetriesIAC → waitIAC k ≤ 488)
    ∧ (∀ k l, k ≤ l → ultraWait k ≤ ultraWait l)
    ∧ (∀ k, ultraWait k ≤ 300)
    ∧ fetchPageIAC (fun _ => SlackResp.ratelimited)
        = ([waitIAC 0, waitIAC 1, waitIAC 2, waitIAC 3], PageOutcome.abandoned)
    ∧ (∀ n maxPages, 0 < maxPages →
        (ultraRun maxPages (List.replicate n SlackResp.ratelimited)).exited = false
        ∧ (ultraRun maxPages (List.replicate n SlackResp.ratelimited)).pageCount = 0
        ∧ (ultraRun maxPages
            (List.replicate n SlackResp.ratelimited)).waits.length = n) := by
  refine ⟨?_, ?_, ?_, ?_, ?_, ?_⟩
  · intro k l hkl
    unfold waitIAC
    exact Nat.mul_le_mul_left _ (Nat.pow_le_pow_right (by norm_num) hkl)
  · intro k hk
    have hk3 : k ≤ 3 := by unfold maxRetriesIAC at hk; omega
    have : waitIAC k ≤ waitIAC 3 :=
      Nat.mul_le_mul_left _ (Nat.pow_le_pow_right (by norm_num) hk3)
    calc waitIAC k ≤ waitIAC 3 := this
      _ = 488 := by decide
  · intro k l hkl
    unfold ultraWait
    exact min_le_min (Nat.mul_le_mul_left _ hkl) le_rfl
  · intro k
    exact min_le_right _ _
  · decide
  · intro n maxPages hmp
    have h := ultraRun_ratelimited maxPages n ⟨0, 0, [], [], false⟩ rfl hmp
    simpa [ultraRun] using h

/-- Witness for the amended C4 at concrete attempt numbers. -/
theorem C4_backoff_amended_witness :
    waitIAC 1 ≤ waitIAC 2 ∧ waitIAC 3 ≤ 488 ∧ ultraWait 2 ≤ ultraWait 7
    ∧ ultraWait 100 ≤ 300
    ∧ (ultraRun 3 (List.replicate 4 SlackResp.ratelimited)).exited = false :=
  ⟨C4_backoff_amended.1 1 2 (by decide),
   C4_backoff_amended.2.1 3 (by decide),
   C4_backoff_amended.2.2.1 2 7 (by decide),
   C4_backoff_amended.2.2.2.1 100,
   (C4_backoff_amended.2.2.2.2.2 4 3 (by decide)).1⟩

/-- C4 counterexample: ten consecutive rate-limit responses leave
`ultra_smart_channel_sync` still retrying its first page — ten backoff
waits have been slept, no page has been abandoned and the loop has not
exited, contradicting the claim that after the maximum attempt count the
engine abandons the page and moves on.  (The code decrements `page_count`
and `continue`s with no attempt bound.) -/
theorem C4_backoff_counterexample :
    (ultraRun 3 (List.replicate 10 SlackResp.ratelimited)).exited = false
    ∧ (ultraRun 3 (List.replicate 10 SlackResp.ratelimited)).pageCount = 0
    ∧ (ultraRun 3 (List.replicate 10 SlackResp.ratelimited)).waits
        = [60, 120, 180, 240, 300, 300, 300, 300, 300, 300] := by
  refine ⟨by decide, by decide, by decide⟩

/-- `teStep` only ever adds entities. -/
theorem teStep_mem_mono {x : String} (fE : String → List String)
    (cache : EntityCache) (cName k : String) (acc : List String) (m : Msg)
    (h : x ∈ acc) : x ∈ teStep fE cache cName k acc m := by
  unfold teStep
  split
  · simp only []
    split
    · exact mem_insertAll_of_mem _ h
    · exact mem_insertAll_of_mem _ (mem_insertAll_of_mem _ h)
  · exact h

/-- The thread-union fold only ever adds entities. -/
theorem threadEntsFrom_mem_mono {x : String} (fE : String → List String)
    (cache : EntityCache) (cName k : String) :
    ∀ (ms : List Msg) (acc : List String), x ∈ acc →
      x ∈ threadEntsFrom fE cache cName k ms acc := by
  intro ms
  induction ms with
  | nil => intro acc h; exact h
  | cons m ms ih =>
    intro acc h
    exact ih _ (teStep_mem_mono fE cache cName k acc m h)

/-- Splitting the thread-union fold over an append. -/
theorem threadEntsFrom_append (fE : String → List String) (cache : EntityCache)
    (cName k : String) (ms ms' : List Msg) (acc : List String) :
    threadEntsFrom fE cache cName k (ms ++ ms') acc
      = threadEntsFrom fE cache cName k ms'
          (threadEntsFrom fE cache cName k ms acc) := by
  unfold threadEntsFrom
  exact List.foldl_append _ _ _ _

/-- Everything a message with non-empty text extracts lands in its own
thread's union. -/
theorem mem_threadEntsFrom_extract (fE : String → List String)
    (cache : EntityCache) (cName : String) {e : String} :
    ∀ (ms : List Msg) (acc : List String) (m : Msg), m ∈ ms → m.text ≠ "" →
      e ∈ extractLowerAll
        (extractEntities fE cache m.text (some (msgExtractCtx cName))) →
      e ∈ threadEntsFrom fE cache cName (threadKey m) ms acc := by
  intro ms
  induction ms with
  | nil => intro acc m hm; cases hm
  | cons m0 ms ih =>
    intro acc m hm htext he
    show e ∈ threadEntsFrom fE cache cName (threadKey m) ms
      (teStep fE cache cName (threadKey m) acc m0)
    rcases List.mem_cons.mp hm with hm0 | hm'
    · subst hm0
      apply threadEntsFrom_mem_mono
      unfold teStep
      rw [if_pos]
      · simp only []
        split
        · exact mem_insertAll_self _ he
        · exact mem_insertAll_of_mem _ (mem_insertAll_self _ he)
      · rw [beq_self_eq_true]
        simp [htext]
    · exact ih _ m hm' htext he

/-- The company an entity string is mapped to in step 3, when the if-chain
classifies it as a company. -/
def tagCompany (cache : EntityCache) (e : String) : Option String :=
  if (cache.companyCache.map pyLower).contains e then
    cache.companyCache.find? (fun oc => pyLower oc == e)
  else none

/-- The contact an entity string is mapped to in step 3. -/
def tagContact (cache : EntityCache) (e : String) : Option String :=
  if (cache.companyCache.map pyLower).contains e then none
  else if (cache.contactCache.map pyLower).contains e then
    cache.contactCache.find? (fun oc => pyLower oc == e)
  else none

/-- The opportunity an entity string is mapped to in step 3. -/
def tagOpp (cache : EntityCache) (e : String) : Option String :=
  if (cache.companyCache.map pyLower).contains e then none
  else if (cache.contactCache.map pyLower).contains e then none
  else if (cache.opportunityCache.map pyLower).contains e then
    cache.opportunityCache.find? (fun oc => pyLower oc == e)
  else none

/-- `propStep` appends exactly the classified company (if any). -/
theorem propStep_companies (cache : EntityCache) (acc : Entities) (e : String) :
    (propStep cache acc e).companies
      = acc.companies ++ (tagCompany cache e).toList := by
  unfold propStep tagCompany
  by_cases h1 : ((cache.companyCache.map pyLower).contains e) = true
  · rw [if_pos h1, if_pos h1]
    cases hf : cache.companyCache.find? (fun oc => pyLower oc == e) <;> simp [hf]
  · rw [if_neg h1, if_neg h1]
    by_cases h2 : ((cache.contactCache.map pyLower).contains e) = true
    · rw [if_pos h2]
      cases hf : cache.contactCache.find? (fun oc => pyLower oc == e) <;> simp [hf]
    · rw [if_neg h2]
      by_cases h3 : ((cache.opportunityCache.map pyLower).contains e) = true
      · rw [if_pos h3]
        cases hf : cache.opportunityCache.find? (fun oc => pyLower oc == e) <;>
          simp [hf]
      · rw [if_neg h3]
        simp

/-- `propStep` appends exactly the classified contact (if any). -/
theorem propStep_contacts (cache : EntityCache) (acc : Entities) (e : String) :
    (propStep cache acc e).contacts
      = acc.contacts ++ (tagContact cache e).toList := by
  unfold propStep tagContact
  by_cases h1 : ((cache.companyCache.map pyLower).contains e) = true
  · rw [if_pos h1, if_pos h1]
    cases hf : cache.companyCache.find? (fun oc => pyLower oc == e) <;> simp [hf]
  · rw [if_neg h1, if_neg h1]
    by_cases h2 : ((cache.contactCache.map pyLower).contains e) = true
    · rw [if_pos h2, if_pos h2]
      cases hf : cache.contactCache.find? (fun oc => pyLower oc == e) <;> simp [hf]
    · rw [if_neg h2, if_neg h2]
      by_cases h3 : ((cache.opportunityCache.map pyLower).contains e) = true
      · rw [if_pos h3]
        cases hf : cache.opportunityCache.find? (fun oc => pyLower oc == e) <;>
          simp [hf]
      · rw [if_neg h3]
        simp

/-- `propStep` appends exactly the classified opportunity (if any). -/
theorem propStep_opportunities (cache : EntityCache) (acc : Entities)
    (e : String) :
    (propStep cache acc e).opportunities
      = acc.opportunities ++ (tagOpp cache e).toList := by
  unfold propStep tagOpp
  by_cases h1 : ((cache.companyCache.map pyLower).contains e) = true
  · rw [if_pos h1, if_pos h1]
    cases hf : cache.companyCache.find? (fun oc => pyLower oc == e) <;> simp [hf]
  · rw [if_neg h1, if_neg h1]
    by_cases h2 : ((cache.contactCache.map pyLower).contains e) = true
    · rw [if_pos h2, if_pos h2]
      cases hf : cache.contactCache.find? (fun oc => pyLower oc == e) <;> simp [hf]
    · rw [if_neg h2, if_neg h2]
      by_cases h3 : ((cache.opportunityCache.map pyLower).contains e) = true
      · rw [if_pos h3, if_pos h3]
        cases hf : cache.opportunityCache.find? (fun oc => pyLower oc == e) <;>
          simp [hf]
      · rw [if_neg h3, if_neg h3]
        simp

/-- Membership in the companies component of the propagation fold. -/
theorem mem_propFold_companies (cache : EntityCache) :
    ∀ (l : List String) (acc : Entities) (x : String),
      x ∈ (l.foldl (propStep cache) acc).companies ↔
        x ∈ acc.companies ∨ ∃ e ∈ l, tagCompany cache e = some x := by
  intro l
  induction l with
  | nil => intro acc x; simp
  | cons e l ih =>
    intro acc x
    rw [List.foldl_cons, ih]
    constructor
    · rintro (hx | ⟨e', he', hx⟩)
      · rw [propStep_companies] at hx
        rcases List.mem_append.mp hx with h | h
        · exact Or.inl h
        · refine Or.inr ⟨e, List.mem_cons_self e l, ?_⟩
          cases htc : tagCompany cache e with
          | none => rw [htc] at h; cases h
          | some y =>
            rw [htc] at h
            simp at h
            rw [h]
      · exact Or.inr ⟨e', List.mem_cons_of_mem e he', hx⟩
    · rintro (hx | ⟨e', he', hx⟩)
      · left
        rw [propStep_companies]
        exact List.mem_append_left _ hx
      · rcases List.mem_cons.mp he' with he0 | he''
        · left
          rw [propStep_companies]
          apply List.mem_append_right
          rw [← he0, hx]
          simp
        · exact Or.inr ⟨e', he'', hx⟩

/-- Membership in the contacts component of the propagation fold. -/
theorem mem_propFold_contacts (cache : EntityCache) :
    ∀ (l : List String) (acc : Entities) (x : String),
      x ∈ (l.foldl (propStep cache) acc).contacts ↔
        x ∈ acc.contacts ∨ ∃ e ∈ l, tagContact cache e = some x := by
  intro l
  induction l with
  | nil => intro acc x; simp
  | cons e l ih =>
    intro acc x
    rw [List.foldl_cons, ih]
    constructor
    · rintro (hx | ⟨e', he', hx⟩)
      · rw [propStep_contacts] at hx
        rcases List.mem_append.mp hx with h | h
        · exact Or.inl h
        · refine Or.inr ⟨e, List.mem_cons_self e l, ?_⟩
          cases htc : tagContact cache e with
          | none => rw [htc] at h; cases h
          | some y =>
            rw [htc] at h
            simp at h
            rw [h]
      · exact Or.inr ⟨e', List.mem_cons_of_mem e he', hx⟩
    · rintro (hx | ⟨e', he', hx⟩)
      · left
        rw [propStep_contacts]
        exact List.mem_append_left _ hx
      · rcases List.mem_cons.mp he' with he0 | he''
        · left
          rw [propStep_contacts]
          apply List.mem_append_right
          rw [← he0, hx]
          simp
        · exact Or.inr ⟨e', he'', hx⟩

/-- Membership in the opportunities component of the propagation fold. -/
theorem mem_propFold_opportunities (cache : EntityCache) :
    ∀ (l : List String) (acc : Entities) (x : String),
      x ∈ (l.foldl (propStep cache) acc).opportunities ↔
        x ∈ acc.opportunities ∨ ∃ e ∈ l, tagOpp cache e = some x := by
  intro l
  induction l with
  | nil => intro acc x; simp
  | cons e l ih =>
    intro acc x
    rw [List.foldl_cons, ih]
    constructor
    · rintro (hx | ⟨e', he', hx⟩)
      · rw [propStep_opportunities] at hx
        rcases List.mem_append.mp hx with h | h
        · exact Or.inl h
        · refine Or.inr ⟨e, List.mem_cons_self e l, ?_⟩
          cases htc : tagOpp cache e with
          | none => rw [htc] at h; cases h
          | some y =>
            rw [htc] at h
            simp at h
            rw [h]
      · exact Or.inr ⟨e', List.mem_cons_of_mem e he', hx⟩
    · rintro (hx | ⟨e', he', hx⟩)
      · left
        rw [propStep_opportunities]
        exact List.mem_append_left _ hx
      · rcases List.mem_cons.mp he' with he0 | he''
        · left
          rw [propStep_opportunities]
          apply List.mem_append_right
          rw [← he0, hx]
          simp
        · exact Or.inr ⟨e', he'', hx⟩

/-- `List.lookup` on a cons cell. -/
theorem tmLookup_cons (a : String × (List Msg × List String)) (tm : ThreadMap)
    (k : String) :
    ((a :: tm).lookup k) = if (k == a.1) then some a.2 else tm.lookup k := by
  rcases a with ⟨k0, v⟩
  by_cases h : (k == k0) = true
  · simp [List.lookup, h]
  · simp [List.lookup, h]

/-- `List.lookup` misses an append iff it misses both parts. -/
theorem tmLookup_append_none {tm1 tm2 : ThreadMap} {k : String} :
    (tm1 ++ tm2).lookup k = none ↔ tm1.lookup k = none ∧ tm2.lookup k = none := by
  induction tm1 with
  | nil => simp
  | cons a tm1 ih =>
    rw [List.cons_append, tmLookup_cons, tmLookup_cons]
    by_cases h : (k == a.1) = true
    · rw [if_pos h, if_pos h]
      simp
    · rw [if_neg h, if_neg h]
      exact ih

/-- Members of `tmEnsure` are old members or the freshly created empty
entry, the latter only when the key was absent. -/
theorem mem_tmEnsure {kv : String × (List Msg × List String)} {tm : ThreadMap}
    {k : String} (h : kv ∈ tmEnsure tm k) :
    kv ∈ tm ∨ (tm.lookup k = none ∧ kv = (k, ([], []))) := by
  unfold tmEnsure at h
  by_cases hs : ((tm.lookup k).isSome : Bool) = true
  · rw [if_pos hs] at h
    exact Or.inl h
  · rw [if_neg hs] at h
    rcases List.mem_append.mp h with h | h
    · exact Or.inl h
    · exact Or.inr ⟨Option.not_isSome_iff_eq_none.mp (by simpa using hs),
        List.mem_singleton.mp h⟩

/-- A key missing after `tmEnsure` was missing before and differs from the
ensured key. -/
theorem tmEnsure_lookup_none {tm : ThreadMap} {k k' : String}
    (h : (tmEnsure tm k).lookup k' = none) : tm.lookup k' = none ∧ k' ≠ k := by
  unfold tmEnsure at h
  by_cases hs : ((tm.lookup k).isSome : Bool) = true
  · rw [if_pos hs] at h
    refine ⟨h, ?_⟩
    rintro rfl
    rw [h] at hs
    simp at hs
  · rw [if_neg hs] at h
    have h2 := tmLookup_append_none.mp h
    refine ⟨h2.1, ?_⟩
    have h3 := h2.2
    rw [tmLookup_cons] at h3
    by_cases hk : (k' == k) = true
    · rw [if_pos (by simpa using hk)] at h3
      exact absurd h3 (by simp)
    · intro hkk
      rw [hkk] at hk
      exact hk (beq_self_eq_true k)

/-- `tmAddEnts` as an entry-wise map that fixes the key. -/
theorem tmAddEnts_eq (tm : ThreadMap) (k : String) (es : List String) :
    tmAddEnts tm k es = tm.map fun kv =>
      (kv.1, if (kv.1 == k) then (kv.2.1, insertAll es kv.2.2) else kv.2) := by
  unfold tmAddEnts
  apply List.map_congr_left
  intro kv _
  by_cases h : (kv.1 == k) = true
  · rw [if_pos h, if_pos h]
  · rw [if_neg h, if_neg h]

/-- `tmAddMsg` as an entry-wise map that fixes the key. -/
theorem tmAddMsg_eq (tm : ThreadMap) (k : String) (m : Msg) :
    tmAddMsg tm k m = tm.map fun kv =>
      (kv.1, if (kv.1 == k) then (kv.2.1 ++ [m], kv.2.2) else kv.2) := by
  unfold tmAddMsg
  apply List.map_congr_left
  intro kv _
  by_cases h : (kv.1 == k) = true
  · rw [if_pos h, if_pos h]
  · rw [if_neg h, if_neg h]

/-- Key-fixing entry maps preserve which keys are absent. -/
theorem lookup_none_map_entry (tm : ThreadMap) (k' : String)
    (f : String × (List Msg × List String) → List Msg × List String) :
    ((tm.map fun kv => (kv.1, f kv)).lookup k') = none ↔ tm.lookup k' = none := by
  induction tm with
  | nil => simp
  | cons a tm ih =>
    rw [List.map_cons, tmLookup_cons, tmLookup_cons]
    by_cases hk : (k' == a.1) = true
    · rw [if_pos (by simpa using hk), if_pos hk]
      simp
    · rw [if_neg (by simpa using hk), if_neg hk]
      exact ih

/-- Keys absent from `tmAddEnts` were absent before. -/
theorem tmAddEnts_lookup_none {tm : ThreadMap} {k k' : String}
    {es : List String} (h : (tmAddEnts tm k es).lookup k' = none) :
    tm.lookup k' = none := by
  rw [tmAddEnts_eq] at h
  exact (lookup_none_map_entry tm k' _).mp h

/-- Keys absent from `tmAddMsg` were absent before. -/
theorem tmAddMsg_lookup_none {tm : ThreadMap} {k k' : String} {m : Msg}
    (h : (tmAddMsg tm k m).lookup k' = none) : tm.lookup k' = none := by
  rw [tmAddMsg_eq] at h
  exact (lookup_none_map_entry tm k' _).mp h

/-- Destructing a member of `tmAddEnts`: same key, same messages, the
entity set extended exactly on the targeted key. -/
theorem mem_tmAddEnts_chain {kv' : String × (List Msg × List String)}
    {tm : ThreadMap} {k : String} {es : List String}
    (h : kv' ∈ tmAddEnts tm k es) :
    ∃ kv ∈ tm, kv'.1 = kv.1 ∧ kv'.2.1 = kv.2.1 ∧
      kv'.2.2 = (if (kv.1 == k) then insertAll es kv.2.2 else kv.2.2) := by
  rw [tmAddEnts_eq] at h
  obtain ⟨kv, hkv, hkv'⟩ := List.mem_map.mp h
  subst hkv'
  refine ⟨kv, hkv, rfl, ?_, ?_⟩
  · by_cases hk : (kv.1 == k) = true
    · rw [if_pos hk]
    · rw [if_neg hk]
  · by_cases hk : (kv.1 == k) = true
    · rw [if_pos hk]
      dsimp only
      rw [if_pos hk]
    · rw [if_neg hk]
      dsimp only
      rw [if_neg hk]

/-- Destructing a member of `tmAddMsg`: same key, same entity set, the
message list extended exactly on the targeted key. -/
theorem mem_tmAddMsg_chain {kv' : String × (List Msg × List String)}
    {tm : ThreadMap} {k : String} {m : Msg} (h : kv' ∈ tmAddMsg tm k m) :
    ∃ kv ∈ tm, kv'.1 = kv.1 ∧ kv'.2.2 = kv.2.2 ∧
      kv'.2.1 = (if (kv.1 == k) then kv.2.1 ++ [m] else kv.2.1) := by
  rw [tmAddMsg_eq] at h
  obtain ⟨kv, hkv, hkv'⟩ := List.mem_map.mp h
  subst hkv'
  refine ⟨kv, hkv, rfl, ?_, ?_⟩
  · by_cases hk : (kv.1 == k) = true
    · rw [if_pos hk]
    · rw [if_neg hk]
  · by_cases hk : (kv.1 == k) = true
    · rw [if_pos hk]
      dsimp only
      rw [if_pos hk]
    · rw [if_neg hk]
      dsimp only
      rw [if_neg hk]

/-- `teStep` does nothing for a foreign thread key or an empty text. -/
theorem teStep_skip (fE : String → List String) (cache : EntityCache)
    (cName : String) {k1 : String} {m : Msg} (es : List String)
    (h : (threadKey m == k1) = false ∨ m.text = "") :
    teStep fE cache cName k1 es m = es := by
  unfold teStep
  rw [if_neg]
  intro hcond
  rcases h with h | h
  · rw [h] at hcond
    simp at hcond
  · rw [h] at hcond
    simp at hcond

/-- `teStep` on a message's own thread key with non-empty text. -/
theorem teStep_self (fE : String → List String) (cache : EntityCache)
    (cName : String) {m : Msg} (ht : m.text ≠ "") (es : List String) :
    teStep fE cache cName (threadKey m) es m
      = (if (companyChannelEnts cache cName).isEmpty then
          insertAll (extractLowerAll
            (extractEntities fE cache m.text (some (msgExtractCtx cName)))) es
         else insertAll (companyChannelEnts cache cName)
          (insertAll (extractLowerAll
            (extractEntities fE cache m.text (some (msgExtractCtx cName)))) es)) := by
  unfold teStep
  rw [if_pos]
  rw [beq_self_eq_true]
  simp [ht]

/-- Computation rule for `smartStep2` on a live state. -/
theorem smartStep2_some (fE : String → List String) (cache : EntityCache)
    (cName : String) (ccEnts : List String) (tm : ThreadMap) (b : Bool)
    (m : Msg) :
    smartStep2 fE cache cName ccEnts (some (tm, b)) m
      = (if m.text ≠ "" then
          some (tmAddMsg
            (if ccEnts.isEmpty then
              tmAddEnts (tmEnsure tm (threadKey m)) (threadKey m)
                (extractLowerAll
                  (extractEntities fE cache m.text (some (msgExtractCtx cName))))
             else
              tmAddEnts
                (tmAddEnts (tmEnsure tm (threadKey m)) (threadKey m)
                  (extractLowerAll
                    (extractEntities fE cache m.text (some (msgExtractCtx cName)))))
                (threadKey m) ccEnts)
            (threadKey m) m, true)
        else if b then some (tmAddMsg (tmEnsure tm (threadKey m)) (threadKey m) m, b)
        else none) := rfl

/-- The shared invariant-transport core of one `smartStep2` application:
given a key-wise description of how the new map's entries arise from the
ensured map, the three invariants move from `pre` to `pre ++ [m]`. -/
theorem step2_core (fE : String → List String) (cache : EntityCache)
    (cName : String) (pre : List Msg) (m : Msg) (tm tm' : ThreadMap)
    (hchain : ∀ kv' ∈ tm', ∃ kv ∈ tmEnsure tm (threadKey m), kv'.1 = kv.1
      ∧ kv'.2.2 = (if (kv.1 == threadKey m) then
          teStep fE cache cName (threadKey m) kv.2.2 m else kv.2.2)
      ∧ kv'.2.1 = (if (kv.1 == threadKey m) then kv.2.1 ++ [m] else kv.2.1))
    (hlook : ∀ k1, tm'.lookup k1 = none →
      (tmEnsure tm (threadKey m)).lookup k1 = none)
    (h1 : ∀ kv ∈ tm, kv.2.2 = threadEntsOf fE cache cName pre kv.1)
    (h2 : ∀ kv ∈ tm, ∀ mm ∈ kv.2.1, threadKey mm = kv.1)
    (h3 : ∀ k, tm.lookup k = none → threadEntsOf fE cache cName pre k = []) :
    (∀ kv ∈ tm', kv.2.2 = threadEntsOf fE cache cName (pre ++ [m]) kv.1)
    ∧ (∀ kv ∈ tm', ∀ mm ∈ kv.2.1, threadKey mm = kv.1)
    ∧ (∀ k, tm'.lookup k = none →
        threadEntsOf fE cache cName (pre ++ [m]) k = []) := by
  have hTE : ∀ k1, threadEntsOf fE cache cName (pre ++ [m]) k1
      = teStep fE cache cName k1 (threadEntsOf fE cache cName pre k1) m := by
    intro k1
    unfold threadEntsOf
    rw [threadEntsFrom_append]
    rfl
  have htme1 : ∀ kv ∈ tmEnsure tm (threadKey m),
      kv.2.2 = threadEntsOf fE cache cName pre kv.1 := by
    intro kv hkv
    rcases mem_tmEnsure hkv with h | ⟨hnone, rfl⟩
    · exact h1 kv h
    · exact (h3 _ hnone).symm
  have htme2 : ∀ kv ∈ tmEnsure tm (threadKey m),
      ∀ mm ∈ kv.2.1, threadKey mm = kv.1 := by
    intro kv hkv
    rcases mem_tmEnsure hkv with h | ⟨hnone, rfl⟩
    · exact h2 kv h
    · intro mm hmm
      cases hmm
  refine ⟨?_, ?_, ?_⟩
  · intro kv' hkv'
    obtain ⟨kv, hkv, he1, he2, he3⟩ := hchain kv' hkv'
    rw [he2, he1, hTE kv.1]
    by_cases hk : (kv.1 == threadKey m) = true
    · have hkeq : kv.1 = threadKey m := eq_of_beq hk
      rw [if_pos hk, htme1 kv hkv, hkeq]
    · rw [if_neg hk, htme1 kv hkv]
      rw [teStep_skip fE cache cName _ (Or.inl ?_)]
      rw [beq_eq_false_iff_ne]
      exact fun hcontra => (beq_eq_false_iff_ne.mp
        (Bool.eq_false_iff.mpr hk)) hcontra.symm
  · intro kv' hkv' mm hmm
    obtain ⟨kv, hkv, he1, he2, he3⟩ := hchain kv' hkv'
    rw [he3] at hmm
    rw [he1]
    by_cases hk : (kv.1 == threadKey m) = true
    · rw [if_pos hk] at hmm
      rcases List.mem_append.mp hmm with hmm | hmm
      · exact htme2 kv hkv mm hmm
      · have : mm = m := List.mem_singleton.mp hmm
        rw [this, eq_of_beq hk]
    · rw [if_neg hk] at hmm
      exact htme2 kv hkv mm hmm
  · intro k1 hk1
    have h4 := tmEnsure_lookup_none (hlook k1 hk1)
    rw [hTE k1, h3 _ h4.1]
    rw [teStep_skip fE cache cName _ (Or.inl ?_)]
    rw [beq_eq_false_iff_ne]
    exact fun hcontra => h4.2 hcontra.symm

/-- The three invariants survive one `smartStep2` application. -/
theorem smartStep2_inv (fE : String → List String) (cache : EntityCache)
    (cName : String) (m : Msg) (tm tm' : ThreadMap) (b b' : Bool)
    (pre : List Msg)
    (hstep : smartStep2 fE cache cName (companyChannelEnts cache cName)
        (some (tm, b)) m = some (tm', b'))
    (h1 : ∀ kv ∈ tm, kv.2.2 = threadEntsOf fE cache cName pre kv.1)
    (h2 : ∀ kv ∈ tm, ∀ mm ∈ kv.2.1, threadKey mm = kv.1)
    (h3 : ∀ k, tm.lookup k = none → threadEntsOf fE cache cName pre k = []) :
    (∀ kv ∈ tm', kv.2.2 = threadEntsOf fE cache cName (pre ++ [m]) kv.1)
    ∧ (∀ kv ∈ tm', ∀ mm ∈ kv.2.1, threadKey mm = kv.1)
    ∧ (∀ k, tm'.lookup k = none →
        threadEntsOf fE cache cName (pre ++ [m]) k = []) := by
  rw [smartStep2_some] at hstep
  by_cases ht : m.text ≠ ""
  · rw [if_pos ht] at hstep
    have hpair := Option.some.inj hstep
    have htm' : tm' = tmAddMsg
        (if (companyChannelEnts cache cName).isEmpty then
          tmAddEnts (tmEnsure tm (threadKey m)) (threadKey m)
            (extractLowerAll
              (extractEntities fE cache m.text (some (msgExtractCtx cName))))
         else
          tmAddEnts
            (tmAddEnts (tmEnsure tm (threadKey m)) (threadKey m)
              (extractLowerAll
                (extractEntities fE cache m.text (some (msgExtractCtx cName)))))
            (threadKey m) (companyChannelEnts cache cName))
        (threadKey m) m := (congrArg Prod.fst hpair).symm
    refine step2_core fE cache cName pre m tm tm' ?_ ?_ h1 h2 h3
    · intro kv' hkv'
      rw [htm'] at hkv'
      obtain ⟨kvB, hkvB, hq1, hq2, hq3⟩ := mem_tmAddMsg_chain hkv'
      by_cases hcc : ((companyChannelEnts cache cName).isEmpty : Bool) = true
      · rw [if_pos hcc] at hkvB
        obtain ⟨kv, hkv, hp1, hp2, hp3⟩ := mem_tmAddEnts_chain hkvB
        refine ⟨kv, hkv, hq1.trans hp1, ?_, ?_⟩
        · rw [hq2, hp3]
          by_cases hk : (kv.1 == threadKey m) = true
          · rw [if_pos hk, if_pos hk, teStep_self fE cache cName ht, if_pos hcc]
          · rw [if_neg hk, if_neg hk]
        · rw [hq3, hp1, hp2]
      · rw [if_neg hcc] at hkvB
        obtain ⟨kvA, hkvA, hr1, hr2, hr3⟩ := mem_tmAddEnts_chain hkvB
        obtain ⟨kv, hkv, hp1, hp2, hp3⟩ := mem_tmAddEnts_chain hkvA
        refine ⟨kv, hkv, (hq1.trans hr1).trans hp1, ?_, ?_⟩
        · rw [hq2, hr3, hp1, hp3]
          by_cases hk : (kv.1 == threadKey m) = true
          · rw [if_pos hk, if_pos hk, if_pos hk,
              teStep_self fE cache cName ht, if_neg hcc]
          · rw [if_neg hk, if_neg hk, if_neg hk]
        · rw [hq3, hr1, hp1, hr2, hp2]
    · intro k1 hk1
      rw [htm'] at hk1
      have hB := tmAddMsg_lookup_none hk1
      by_cases hcc : ((companyChannelEnts cache cName).isEmpty : Bool) = true
      · rw [if_pos hcc] at hB
        exact tmAddEnts_lookup_none hB
      · rw [if_neg hcc] at hB
        exact tmAddEnts_lookup_none (tmAddEnts_lookup_none hB)
  · rw [if_neg ht] at hstep
    by_cases hb : b = true
    · rw [if_pos hb] at hstep
      have hpair := Option.some.inj hstep
      have htm' : tm' = tmAddMsg (tmEnsure tm (threadKey m)) (threadKey m) m :=
        (congrArg Prod.fst hpair).symm
      have htext : m.text = "" := by
        by_contra hcontra
        exact ht hcontra
      refine step2_core fE cache cName pre m tm tm' ?_ ?_ h1 h2 h3
      · intro kv' hkv'
        rw [htm'] at hkv'
        obtain ⟨kv, hkv, hq1, hq2, hq3⟩ := mem_tmAddMsg_chain hkv'
        refine ⟨kv, hkv, hq1, ?_, hq3⟩
        rw [hq2]
        by_cases hk : (kv.1 == threadKey m) = true
        · rw [if_pos hk, teStep_skip fE cache cName _ (Or.inr htext)]
        · rw [if_neg hk]
      · intro k1 hk1
        rw [htm'] at hk1
        exact tmAddMsg_lookup_none hk1
    · rw [if_neg hb] at hstep
      exact absurd hstep (by simp)

/-- An aborted step-2 run stays aborted. -/
theorem smartFold_none (fE : String → List String) (cache : EntityCache)
    (cName : String) (ccEnts : List String) :
    ∀ ms : List Msg, ms.foldl (smartStep2 fE cache cName ccEnts) none = none := by
  intro ms
  induction ms with
  | nil => rfl
  | cons m ms ih =>
    rw [List.foldl_cons]
    exact ih

/-- The two entry invariants hold of any successful step-2 fold. -/
theorem smartFold_inv (fE : String → List String) (cache : EntityCache)
    (cName : String) :
    ∀ (ms pre : List Msg) (tm : ThreadMap) (b : Bool) (tm' : ThreadMap)
      (b' : Bool),
      ms.foldl (smartStep2 fE cache cName (companyChannelEnts cache cName))
          (some (tm, b)) = some (tm', b') →
      (∀ kv ∈ tm, kv.2.2 = threadEntsOf fE cache cName pre kv.1) →
      (∀ kv ∈ tm, ∀ mm ∈ kv.2.1, threadKey mm = kv.1) →
      (∀ k, tm.lookup k = none → threadEntsOf fE cache cName pre k = []) →
      (∀ kv ∈ tm', kv.2.2 = threadEntsOf fE cache cName (pre ++ ms) kv.1)
      ∧ (∀ kv ∈ tm', ∀ mm ∈ kv.2.1, threadKey mm = kv.1) := by
  intro ms
  induction ms with
  | nil =>
    intro pre tm b tm' b' hfold h1 h2 h3
    have hpair := Option.some.inj hfold
    have htm : tm = tm' := congrArg Prod.fst hpair
    subst htm
    rw [List.append_nil]
    exact ⟨h1, h2⟩
  | cons m ms ih =>
    intro pre tm b tm' b' hfold h1 h2 h3
    rw [List.foldl_cons] at hfold
    cases hstep : smartStep2 fE cache cName (companyChannelEnts cache cName)
        (some (tm, b)) m with
    | none =>
      rw [hstep, smartFold_none] at hfold
      exact absurd hfold (by simp)
    | some st =>
      rcases st with ⟨tmi, bi⟩
      rw [hstep] at hfold
      obtain ⟨g1, g2, g3⟩ :=
        smartStep2_inv fE cache cName m tm tmi b bi pre hstep h1 h2 h3
      have hres := ih (pre ++ [m]) tmi bi tm' b' hfold g1 g2 g3
      rw [List.append_assoc] at hres
      exact hres

/-- C3: thread-aware propagation.  Part 1: each indexed document of a
successful run is tagged with the propagated entity union of its whole
thread group.  Part 2: this union contains every (lower-cased) entity any
message of the group extracts — also for siblings that mention nothing
themselves, since the tag depends only on the thread key.  Part 3: the union
is monotonic — appending a new message to the channel can only grow a
thread's union, and hence a sibling's propagated company/contact/opportunity
tags, never remove one. -/
theorem C3_thread_propagation (fE : String → List String) (cache : EntityCache)
    (cName : String) (ms : List Msg) (docs : List TaggedDoc)
    (h : indexChannelSmart fE cache cName ms = some docs) :
    (∀ d ∈ docs, d.entities
        = propagateTag cache (threadEntsOf fE cache cName ms (docThreadKey d)))
    ∧ (∀ m ∈ ms, m.text ≠ "" →
        ∀ e ∈ extractLowerAll
            (extractEntities fE cache m.text (some (msgExtractCtx cName))),
          e ∈ threadEntsOf fE cache cName ms (threadKey m))
    ∧ (∀ (k : String) (mNew : Msg) (x : String),
        (x ∈ threadEntsOf fE cache cName ms k →
          x ∈ threadEntsOf fE cache cName (ms ++ [mNew]) k)
        ∧ (x ∈ (propagateTag cache (threadEntsOf fE cache cName ms k)).companies →
            x ∈ (propagateTag cache
              (threadEntsOf fE cache cName (ms ++ [mNew]) k)).companies)
        ∧ (x ∈ (propagateTag cache (threadEntsOf fE cache cName ms k)).contacts →
            x ∈ (propagateTag cache
              (threadEntsOf fE cache cName (ms ++ [mNew]) k)).contacts)
        ∧ (x ∈ (propagateTag cache
              (threadEntsOf fE cache cName ms k)).opportunities →
            x ∈ (propagateTag cache
              (threadEntsOf fE cache cName (ms ++ [mNew]) k)).opportunities)) := by
  have hmono : ∀ (k : String) (mNew : Msg) (x : String),
      x ∈ threadEntsOf fE cache cName ms k →
        x ∈ threadEntsOf fE cache cName (ms ++ [mNew]) k := by
    intro k mNew x hx
    have hx' : threadEntsOf fE cache cName (ms ++ [mNew]) k
        = teStep fE cache cName k (threadEntsOf fE cache cName ms k) mNew := by
      unfold threadEntsOf
      rw [threadEntsFrom_append]
      rfl
    rw [hx']
    exact teStep_mem_mono fE cache cName k _ mNew hx
  refine ⟨?_, ?_, ?_⟩
  · unfold indexChannelSmart at h
    obtain ⟨tm, htm, hdocs⟩ := Option.map_eq_some'.mp h
    unfold smartThreadMap at htm
    obtain ⟨st, hfold, hst⟩ := Option.map_eq_some'.mp htm
    rcases st with ⟨tmf, bf⟩
    have hinv := smartFold_inv fE cache cName ms [] [] false tmf bf hfold
      (by intro kv hkv; cases hkv) (by intro kv hkv; cases hkv)
      (by intro k _; rfl)
    rw [List.nil_append] at hinv
    intro d hd
    rw [← hdocs] at hd
    have htmf : tm = tmf := hst.symm
    subst htmf
    unfold smartStep3 at hd
    obtain ⟨kv, hkv, hdm⟩ := List.mem_flatMap.mp hd
    obtain ⟨mm, hmm, hsome⟩ := List.mem_filterMap.mp hdm
    by_cases hc1 : (mm.botId.isSome || mm.subtype.isSome) = true
    · rw [if_pos hc1] at hsome
      exact absurd hsome (by simp)
    · rw [if_neg hc1] at hsome
      by_cases hc2 : mm.text.length < 3
      · rw [if_pos (decide_eq_true hc2)] at hsome
        exact absurd hsome (by simp)
      · rw [if_neg (by simpa using hc2)] at hsome
        have hdval := Option.some.inj hsome
        have hkey : docThreadKey d = threadKey mm := by
          rw [← hdval]
          rfl
        have hents : d.entities = propagateTag cache kv.2.2 := by
          rw [← hdval]
        rw [hents, hkey, hinv.2 kv hkv mm hmm, hinv.1 kv hkv]
  · intro m hm htext e he
    exact mem_threadEntsFrom_extract fE cache cName ms [] m hm htext he
  · intro k mNew x
    refine ⟨hmono k mNew x, ?_, ?_, ?_⟩
    · intro hx
      have hc := (mem_propFold_companies cache
        (threadEntsOf fE cache cName ms k) ⟨[], [], []⟩ x).mp hx
      rcases hc with hc | ⟨e, he, hc⟩
      · cases hc
      · exact (mem_propFold_companies cache
          (threadEntsOf fE cache cName (ms ++ [mNew]) k) ⟨[], [], []⟩ x).mpr
          (Or.inr ⟨e, hmono k mNew e he, hc⟩)
    · intro hx
      have hc := (mem_propFold_contacts cache
        (threadEntsOf fE cache cName ms k) ⟨[], [], []⟩ x).mp hx
      rcases hc with hc | ⟨e, he, hc⟩
      · cases hc
      · exact (mem_propFold_contacts cache
          (threadEntsOf fE cache cName (ms ++ [mNew]) k) ⟨[], [], []⟩ x).mpr
          (Or.inr ⟨e, hmono k mNew e he, hc⟩)
    · intro hx
      have hc := (mem_propFold_opportunities cache
        (threadEntsOf fE cache cName ms k) ⟨[], [], []⟩ x).mp hx
      rcases hc with hc | ⟨e, he, hc⟩
      · cases hc
      · exact (mem_propFold_opportunities cache
          (threadEntsOf fE cache cName (ms ++ [mNew]) k) ⟨[], [], []⟩ x).mpr
          (Or.inr ⟨e, hmono k mNew e he, hc⟩)

/-- Witness for C3: a two-message thread where only the first message
mentions the cached company `"acme corp"`; the run succeeds, both messages
are indexed, and the sibling that mentions nothing is tagged with the
thread union as well. -/
theorem C3_thread_propagation_witness :
    indexChannelSmart (fun _ => []) ⟨["acme corp"], [], []⟩ "deals"
        [⟨"1", none, "hello acme corp today", some "U1", none, none⟩,
         ⟨"2", some "1", "sounds good", some "U2", none, none⟩]
      = some
        [⟨"1", "hello acme corp today", none, ⟨["acme corp"], [], []⟩, true⟩,
         ⟨"2", "sounds good", some "1", ⟨["acme corp"], [], []⟩, false⟩]
    ∧ (⟨"2", "sounds good", some "1", ⟨["acme corp"], [], []⟩, false⟩ :
        TaggedDoc).entities
      = propagateTag ⟨["acme corp"], [], []⟩
          (threadEntsOf (fun _ => []) ⟨["acme corp"], [], []⟩ "deals"
            [⟨"1", none, "hello acme corp today", some "U1", none, none⟩,
             ⟨"2", some "1", "sounds good", some "U2", none, none⟩]
            (docThreadKey
              ⟨"2", "sounds good", some "1", ⟨["acme corp"], [], []⟩, false⟩)) :=
  ⟨by decide,
   (C3_thread_propagation (fun _ => []) ⟨["acme corp"], [], []⟩ "deals"
       [⟨"1", none, "hello acme corp today", some "U1", none, none⟩,
        ⟨"2", some "1", "sounds good", some "U2", none, none⟩]
       [⟨"1", "hello acme corp today", none, ⟨["acme corp"], [], []⟩, true⟩,
        ⟨"2", "sounds good", some "1", ⟨["acme corp"], [], []⟩, false⟩]
       (by decide)).1
     ⟨"2", "sounds good", some "1", ⟨["acme corp"], [], []⟩, false⟩ (by decide)⟩

end SalesRag
